import Mathlib

/-!
Shallow embedding of the badminton match scheduler (`src/app.js`) in Lean 4,
together with proofs checking the natural-language specification against it.

The embedded functions mirror the second (final) script in `app.js`, i.e. the
version in which `generateMatches` has been re-wrapped to exclude resting
players, `updateStats`/`renderPlayers` show win-loss records, and `saveScore`
exists.  JavaScript idioms are translated as follows:

* the global mutable `state` object becomes an explicit `AppState` value that
  every operation takes and returns;
* `Math.random()`-driven choices are threaded as explicit parameters
  (`rnd : Nat → Nat → Nat`, call site × loop index), `generateId()` becomes an
  explicit id supply, and `new Date().toISOString()` becomes a `now : Nat`
  parameter;
* `Array.prototype.sort(cmp)` (stable in every modern engine, and the spec
  demands a stable sort) is embedded as a structural stable insertion sort
  `sortByCmp`, which produces the unique stable ordering for the comparator;
* `findIndex` + `splice` is embedded as `extractFirstBy`;
* `state.players.find(p => p.id === id)` followed by in-place mutation is
  embedded as `updateFirstBy`, which rewrites only the first hit, exactly like
  the JS code;
* the `matchQueue` / `currentMatches` / `matches` arrays hold references to
  the very same match objects in JS, so an in-place mutation of a dispatched
  or completed match is visible through `state.matches` as well; the embedding
  makes this aliasing explicit by syncing the mutated match value into the
  `matches` list (`syncMatch`).
-/

namespace Badminton

/-- Skill levels, `LEVEL_WEIGHTS` keys. -/
inductive Level where
  | beginner | intermediate | advanced | pro
deriving DecidableEq, Repr

/-- `LEVEL_WEIGHTS` from `app.js`. -/
def LEVEL_WEIGHTS : Level → Nat
  | .beginner => 1
  | .intermediate => 2
  | .advanced => 3
  | .pro => 4

inductive MatchType where
  | singles | doubles
deriving DecidableEq, Repr

inductive PairingMode where
  | random | balanced | separate
deriving DecidableEq, Repr

inductive MatchStatus where
  | pending | playing | completed
deriving DecidableEq, Repr

inductive Winner where
  | team1 | team2 | draw
deriving DecidableEq, Repr

/-- A roster entry.  `wins`/`losses` are `Option` because players created by
`addPlayer` carry no such fields until `saveScore` initializes them
(`player.wins === undefined` in JS). -/
structure Player where
  id : Nat
  name : String
  level : Level
  matchCount : Nat
  isPlaying : Bool
  isResting : Bool
  wins : Option Nat
  losses : Option Nat
  createdAt : Nat
deriving DecidableEq, Repr

/-- The six per-set score inputs of the score modal (`parseInt(...) || 0`). -/
structure Scores where
  score1Set1 : Int
  score1Set2 : Int
  score1Set3 : Int
  score2Set1 : Int
  score2Set2 : Int
  score2Set3 : Int
deriving DecidableEq, Repr

structure GameMatch where
  id : Nat
  type : MatchType
  team1 : List Nat
  team2 : List Nat
  status : MatchStatus
  court : Option Nat
  roundId : Option Nat
  roundNumber : Option Nat
  createdAt : Nat
  startedAt : Option Nat
  completedAt : Option Nat
  scores : Option Scores
  winner : Option Winner
deriving DecidableEq, Repr

structure Round where
  id : Nat
  roundNumber : Nat
  -- `matches` in JS (`matches` is a Lean keyword): the ids of the round's matches
  matchIds : List Nat
  createdAt : Nat
deriving DecidableEq, Repr

structure Settings where
  matchType : MatchType
  pairingMode : PairingMode
  courtCount : Nat
  multiCourt : Bool
deriving DecidableEq, Repr

/-- The global `state` object (sans the rental-timer widget, which never
touches match or player data). -/
structure AppState where
  players : List Player
  -- `state.matches` in JS (`matches` is a Lean keyword)
  allMatches : List GameMatch
  currentMatches : List GameMatch
  matchQueue : List GameMatch
  rounds : List Round
  settings : Settings
  currentRound : Nat
deriving DecidableEq, Repr

/-- All member ids of a match, in `[...match.team1, ...match.team2]` order. -/
def GameMatch.members (m : GameMatch) : List Nat := m.team1 ++ m.team2

/-! ### List utilities mirroring the JS idioms -/

/-- One swap `[arr[i], arr[j]] = [arr[j], arr[i]]`; out-of-range indices leave
the list unchanged (they never occur in `shuffleArray`). -/
def listSwap (l : List α) (i j : Nat) : List α :=
  match l.get? i, l.get? j with
  | some a, some b => (l.set i b).set j a
  | _, _ => l

/-- The Fisher-Yates loop of `shuffleArray`, running the index `i` from
`n - 1` down to `1`; `r i` stands for the `Math.random()` draw at index `i`,
reduced to the range `0..i`. -/
def fyLoop (r : Nat → Nat) : Nat → List α → List α
  | 0, l => l
  | i + 1, l => fyLoop r i (listSwap l (i + 1) (r (i + 1) % (i + 2)))

/-- `shuffleArray` from `app.js`. -/
def shuffleArray (r : Nat → Nat) (l : List α) : List α :=
  fyLoop r (l.length - 1) l

/-- Stable insertion of `x` after every element `y` of an already-sorted
accumulator with `cmp y x ≤ 0`. -/
def insertCmp (cmp : α → α → Int) (x : α) : List α → List α
  | [] => [x]
  | y :: ys => if cmp y x ≤ 0 then y :: insertCmp cmp x ys else x :: y :: ys

/-- `Array.prototype.sort(cmp)` as the stable sort for comparator `cmp`. -/
def sortByCmp (cmp : α → α → Int) (l : List α) : List α :=
  l.foldl (fun acc x => insertCmp cmp x acc) []

/-- `findIndex(hit)` followed by `splice(index, 1)`: the first hit together
with the remaining list. -/
def extractFirstBy (hit : α → Bool) : List α → Option (α × List α)
  | [] => none
  | x :: xs =>
    if hit x then some (x, xs)
    else
      match extractFirstBy hit xs with
      | none => none
      | some (y, ys) => some (y, x :: ys)

/-- JS `String.prototype.trim()`: strip leading and trailing whitespace
(structural definition over the character list). -/
def strTrim (s : String) : String :=
  ⟨((s.data.dropWhile Char.isWhitespace).reverse.dropWhile
      Char.isWhitespace).reverse⟩

/-- `arr.find(hit)` followed by in-place mutation of the found element:
rewrite the first hit only. -/
def updateFirstBy (hit : α → Bool) (f : α → α) : List α → List α
  | [] => []
  | x :: xs => if hit x then f x :: xs else x :: updateFirstBy hit f xs

/-! ### Pairing engine -/

/-- The `while (sorted.length >= 4)` loop of `balancePlayers` (doubles):
shift the strongest, pop the weakest, shift the 2nd-strongest, pop the
2nd-weakest and push them in the order
`(strongest, secondWeakest, secondStrongest, weakest)`; leftovers are appended
as-is.  The loop consumes 4 players per iteration, so `fuel = length`
suffices. -/
def balanceLoop : Nat → List Player → List Player
  | 0, s => s
  | _ + 1, [] => []
  | fuel + 1, a :: t =>
    if 4 ≤ (a :: t).length then
      match t.dropLast with
      | b :: u =>
        a :: (u.getLast?.getD b) :: b :: (t.getLast?.getD a) ::
          balanceLoop fuel u.dropLast
      | [] => a :: t
    else a :: t

/-- `balancePlayers` from `app.js`. -/
def balancePlayers (matchType : MatchType) (players : List Player) : List Player :=
  if matchType = .singles then
    sortByCmp (fun a b => (LEVEL_WEIGHTS a.level : Int) - LEVEL_WEIGHTS b.level) players
  else
    let sorted := sortByCmp
      (fun a b => (LEVEL_WEIGHTS b.level : Int) - LEVEL_WEIGHTS a.level) players
    balanceLoop sorted.length sorted

/-- `separateByLevel`: stable partition into the four level groups, each
shuffled independently, concatenated in the fixed order
pro, advanced, intermediate, beginner. -/
def separateByLevel (rnd : Nat → Nat → Nat) (players : List Player) : List Player :=
  shuffleArray (rnd 0) (players.filter (fun p => p.level == .pro)) ++
  shuffleArray (rnd 1) (players.filter (fun p => p.level == .advanced)) ++
  shuffleArray (rnd 2) (players.filter (fun p => p.level == .intermediate)) ++
  shuffleArray (rnd 3) (players.filter (fun p => p.level == .beginner))

/-- The `while (matchesCreated < courtsToFill)` loop of `generateMatches`:
`used` is the `usedPlayers` set, `k` the running `matchesCreated` counter
(used to index the id supply), and the fuel is `courtsToFill - matchesCreated`. -/
def matchLoop (shuffled : List Player) (matchType : MatchType) (ppm ppt : Nat)
    (ids : Nat → Nat) (now : Nat) (used : List Nat) (k : Nat) :
    Nat → List GameMatch
  | 0 => []
  | fuel + 1 =>
    let available := shuffled.filter (fun p => !used.contains p.id)
    if available.length < ppm then []
    else
      let selected := available.take ppm
      let m : GameMatch :=
        { id := ids k
          type := matchType
          team1 := (selected.take ppt).map (·.id)
          team2 := (selected.drop ppt).map (·.id)
          status := .pending
          court := none
          roundId := none
          roundNumber := none
          createdAt := now
          startedAt := none
          completedAt := none
          scores := none
          winner := none }
      m :: matchLoop shuffled matchType ppm ppt ids now
        (used ++ selected.map (·.id)) (k + 1) fuel

/-- The original `generateMatches` (before the re-wrap): mode-specific
ordering, then the stable fairness sort by ascending `matchCount`, then
chunking into matches, at most one per court. -/
def generateMatchesOrig (settings : Settings) (rnd : Nat → Nat → Nat)
    (ids : Nat → Nat) (now : Nat) (availablePlayers : List Player) :
    List GameMatch :=
  let isDoubles := settings.matchType = .doubles
  let playersPerMatch := if isDoubles then 4 else 2
  let playersPerTeam := if isDoubles then 2 else 1
  let shuffledPlayers :=
    match settings.pairingMode with
    | .random => shuffleArray (rnd 0) availablePlayers
    | .balanced => balancePlayers settings.matchType availablePlayers
    | .separate => separateByLevel rnd availablePlayers
  let sortedPlayers :=
    sortByCmp (fun a b => (a.matchCount : Int) - b.matchCount) shuffledPlayers
  matchLoop sortedPlayers settings.matchType playersPerMatch playersPerTeam
    ids now [] 0 settings.courtCount

/-- The re-wrapped `generateMatches` actually installed at load time: filter
out resting players, then run the original engine. -/
def generateMatches (settings : Settings) (rnd : Nat → Nat → Nat)
    (ids : Nat → Nat) (now : Nat) (availablePlayers : List Player) :
    List GameMatch :=
  generateMatchesOrig settings rnd ids now
    (availablePlayers.filter (fun p => !p.isResting))

/-! ### Round generator -/

inductive GenOutcome where
  | insufficientPlayers
  | created (roundNumber matchCount : Nat)
deriving DecidableEq, Repr

/-- `generateRound` from `app.js`.  Note that the precondition counts the
players with `!p.isPlaying` only; resting players are dropped later, inside
the re-wrapped `generateMatches`. -/
def generateRound (roundId : Nat) (rnd : Nat → Nat → Nat) (ids : Nat → Nat)
    (now : Nat) (st : AppState) : GenOutcome × AppState :=
  let playersNeeded := if st.settings.matchType = .doubles then 4 else 2
  let availablePlayers := st.players.filter (fun p => !p.isPlaying)
  if availablePlayers.length < playersNeeded then
    (.insufficientPlayers, st)
  else
    let newRound := st.currentRound + 1
    let ms := (generateMatches st.settings rnd ids now availablePlayers).map
      (fun m => { m with roundId := some roundId, roundNumber := some newRound })
    let round : Round :=
      { id := roundId, roundNumber := newRound, matchIds := ms.map (·.id)
        createdAt := now }
    (.created newRound ms.length,
      { st with
          currentRound := newRound
          allMatches := st.allMatches ++ ms
          matchQueue := st.matchQueue ++ ms
          rounds := st.rounds ++ [round] })

/-! ### Dispatch scheduler -/

/-- Replace the first match with the same id in a match list by the given
value: this is how the JS object aliasing between `matchQueue` /
`currentMatches` and `state.matches` surfaces in the embedding (every match
object is pushed into `state.matches` exactly once, by `generateRound`). -/
def syncMatch (m : GameMatch) (l : List GameMatch) : List GameMatch :=
  updateFirstBy (fun x => x.id == m.id) (fun _ => m) l

/-- The per-player eligibility test of `startNextMatch`:
`player && (!player.isPlaying || state.settings.multiCourt)`. -/
def eligiblePlayerB (players : List Player) (multiCourt : Bool) (pid : Nat) : Bool :=
  match players.find? (fun p => p.id == pid) with
  | some p => !p.isPlaying || multiCourt
  | none => false

/-- A queued match is dispatchable when every member passes
`eligiblePlayerB`. -/
def matchEligibleB (players : List Player) (multiCourt : Bool) (m : GameMatch) : Bool :=
  m.members.all (eligiblePlayerB players multiCourt)

/-- `getAvailableCourts`: court numbers `1..courtCount` not taken by a current
match. -/
def getAvailableCourts (st : AppState) : List Nat :=
  (((List.range st.settings.courtCount).map (· + 1))).filter
    (fun c => !(st.currentMatches.any (fun m => m.court == some c)))

/-- Mark every member as playing and bump its match counter
(`player.isPlaying = true; player.matchCount++` on the first roster hit per
id, in member order). -/
def markPlaying (pids : List Nat) (players : List Player) : List Player :=
  pids.foldl
    (fun ps pid => updateFirstBy (fun p => p.id == pid) (fun p =>
      { p with isPlaying := true, matchCount := p.matchCount + 1 }) ps)
    players

/-- Intermediate state of the `for (const courtNum of availableCourts)` loop. -/
structure LoopState where
  players : List Player
  queue : List GameMatch
  current : List GameMatch
  allMatches : List GameMatch
  started : Nat
deriving DecidableEq, Repr

/-- The court-filling loop of `startNextMatch`: for each free court, extract
the first queue entry all of whose members are eligible, stamp it as playing
on that court and mark its members busy; stop at the first court for which no
queued match qualifies. -/
def startLoop (now : Nat) (multiCourt : Bool) : List Nat → LoopState → LoopState
  | [], s => s
  | c :: cs, s =>
    match extractFirstBy (matchEligibleB s.players multiCourt) s.queue with
    | none => s
    | some (m, queue') =>
      let m' := { m with status := .playing, court := some c, startedAt := some now }
      startLoop now multiCourt cs
        { players := markPlaying m.members s.players
          queue := queue'
          current := s.current ++ [m']
          allMatches := syncMatch m' s.allMatches
          started := s.started + 1 }

inductive StartOutcome where
  | emptyQueue
  | courtsFull
  | nonePlayable
  | started (n : Nat)
deriving DecidableEq, Repr

/-- `startNextMatch` from `app.js`. -/
def startNextMatch (now : Nat) (st : AppState) : StartOutcome × AppState :=
  if st.matchQueue = [] then (.emptyQueue, st)
  else
    let availableCourts := getAvailableCourts st
    if availableCourts = [] then (.courtsFull, st)
    else
      let final := startLoop now st.settings.multiCourt availableCourts
        { players := st.players, queue := st.matchQueue
          current := st.currentMatches, allMatches := st.allMatches, started := 0 }
      if final.started = 0 then (.nonePlayable, st)
      else
        (.started final.started,
          { st with
              players := final.players
              matchQueue := final.queue
              currentMatches := final.current
              allMatches := final.allMatches })

/-! ### Match lifecycle -/

/-- Release every member back to idle (`player.isPlaying = false` on the
first roster hit per id). -/
def releasePlayers (pids : List Nat) (players : List Player) : List Player :=
  pids.foldl
    (fun ps pid => updateFirstBy (fun p => p.id == pid)
      (fun p => { p with isPlaying := false }) ps)
    players

inductive CompleteOutcome where
  | notFound
  | done (m : GameMatch)
deriving DecidableEq, Repr

/-- `completeMatch(matchId)` from `app.js`: silently a no-op when the id is
not among the current matches. -/
def completeMatch (matchId : Nat) (now : Nat) (st : AppState) :
    CompleteOutcome × AppState :=
  match extractFirstBy (fun m => m.id == matchId) st.currentMatches with
  | none => (.notFound, st)
  | some (m, rest) =>
    let m' := { m with status := .completed, completedAt := some now }
    (.done m',
      { st with
          currentMatches := rest
          players := releasePlayers m.members st.players
          allMatches := syncMatch m' st.allMatches })

inductive CompleteAllOutcome where
  | noneActive
  | done (ms : List GameMatch)
deriving DecidableEq, Repr

/-- `completeCurrentMatches` from `app.js`. -/
def completeCurrentMatches (now : Nat) (st : AppState) :
    CompleteAllOutcome × AppState :=
  if st.currentMatches = [] then (.noneActive, st)
  else
    let completed := st.currentMatches.map
      (fun m => { m with status := .completed, completedAt := some now })
    (.done completed,
      { st with
          currentMatches := []
          players := st.currentMatches.foldl
            (fun ps m => releasePlayers m.members ps) st.players
          allMatches := completed.foldl (fun acc m => syncMatch m acc) st.allMatches })

/-! ### Score recording -/

/-- Set-wins of team 1, per the three strict per-set comparisons. -/
def team1Wins (s : Scores) : Nat :=
  (if s.score1Set1 > s.score2Set1 then 1 else 0) +
  (if s.score1Set2 > s.score2Set2 then 1 else 0) +
  (if s.score1Set3 > s.score2Set3 then 1 else 0)

/-- Set-wins of team 2. -/
def team2Wins (s : Scores) : Nat :=
  (if s.score2Set1 > s.score1Set1 then 1 else 0) +
  (if s.score2Set2 > s.score1Set2 then 1 else 0) +
  (if s.score2Set3 > s.score1Set3 then 1 else 0)

/-- `team1Wins > team2Wins ? 'team1' : (team2Wins > team1Wins ? 'team2' : 'draw')`. -/
def deriveWinner (s : Scores) : Winner :=
  if team1Wins s > team2Wins s then .team1
  else if team2Wins s > team1Wins s then .team2
  else .draw

/-- The per-member stats mutation of `saveScore`: release the player,
initialize `wins`/`losses` when missing, then credit a win, a loss, or
nothing according to the derived winner and the member's team. -/
def scoreUpdate (m : GameMatch) (w : Winner) (pid : Nat) (p : Player) : Player :=
  let p1 := { p with
    isPlaying := false
    wins := some (p.wins.getD 0)
    losses := some (p.losses.getD 0) }
  if w = .team1 ∧ m.team1.contains pid then
    { p1 with wins := some (p1.wins.getD 0 + 1) }
  else if w = .team2 ∧ m.team2.contains pid then
    { p1 with wins := some (p1.wins.getD 0 + 1) }
  else if w ≠ .draw then
    { p1 with losses := some (p1.losses.getD 0 + 1) }
  else p1

inductive ScoreOutcome where
  | matchNotFound
  | saved (m : GameMatch)
deriving DecidableEq, Repr

/-- `saveScore` from `app.js` (the score inputs are a parameter in place of
the DOM reads). -/
def saveScore (matchId : Nat) (s : Scores) (now : Nat) (st : AppState) :
    ScoreOutcome × AppState :=
  match extractFirstBy (fun m => m.id == matchId) st.currentMatches with
  | none => (.matchNotFound, st)
  | some (m, rest) =>
    let w := deriveWinner s
    let m' := { m with
      status := .completed, completedAt := some now
      scores := some s, winner := some w }
    (.saved m',
      { st with
          currentMatches := rest
          players := m.members.foldl
            (fun ps pid => updateFirstBy (fun p => p.id == pid) (scoreUpdate m w pid) ps)
            st.players
          allMatches := updateFirstBy (fun x => x.id == matchId) (fun _ => m') st.allMatches })

/-! ### Bulk import -/

/-- The shape of `parsed.players` after `JSON.parse`: missing, present but
not an array, or an array of players. -/
inductive PlayersField where
  | absent
  | notArray
  | arr (players : List Player)
deriving DecidableEq, Repr

/-- The JSON object fed to `Object.assign(state, parsed)`: any subset of the
top-level state fields may be present. -/
structure Snapshot where
  players : PlayersField
  allMatches : Option (List GameMatch)
  currentMatches : Option (List GameMatch)
  matchQueue : Option (List GameMatch)
  rounds : Option (List Round)
  settings : Option Settings
  currentRound : Option Nat
deriving DecidableEq, Repr

/-- The import textarea content: empty, non-JSON, or parsed JSON. -/
inductive ImportPayload where
  | empty
  | notJson
  | json (snap : Snapshot)
deriving DecidableEq, Repr

inductive ImportOutcome where
  | emptyInput
  | invalidFormat
  | imported
deriving DecidableEq, Repr

/-- `doImport` from `app.js`.  `Object.assign(state, parsed)` overwrites
exactly the fields present in the parsed object and keeps the rest. -/
def doImport (payload : ImportPayload) (st : AppState) : ImportOutcome × AppState :=
  match payload with
  | .empty => (.emptyInput, st)
  | .notJson => (.invalidFormat, st)
  | .json snap =>
    match snap.players with
    | .arr newPlayers =>
      (.imported,
        { players := newPlayers
          allMatches := snap.allMatches.getD st.allMatches
          currentMatches := snap.currentMatches.getD st.currentMatches
          matchQueue := snap.matchQueue.getD st.matchQueue
          rounds := snap.rounds.getD st.rounds
          settings := snap.settings.getD st.settings
          currentRound := snap.currentRound.getD st.currentRound })
    | _ => (.invalidFormat, st)

/-! ### Player management -/

inductive AddOutcome where
  | emptyName
  | duplicateName
  | added (p : Player)
deriving DecidableEq, Repr

/-- `addPlayer` from `app.js` (name and level are parameters in place of the
DOM reads; the duplicate check compares lower-cased names). -/
def addPlayer (rawName : String) (level : Level) (newId now : Nat)
    (st : AppState) : AddOutcome × AppState :=
  let name := strTrim rawName
  if name = "" then (.emptyName, st)
  else if st.players.any (fun p => p.name.toLower == name.toLower) then
    (.duplicateName, st)
  else
    let p : Player :=
      { id := newId, name := name, level := level, matchCount := 0
        isPlaying := false, isResting := false, wins := none, losses := none
        createdAt := now }
    (.added p, { st with players := st.players ++ [p] })

inductive EditOutcome where
  | emptyName
  | playerNotFound
  | saved
deriving DecidableEq, Repr

/-- `saveEditPlayer` from `app.js`: no duplicate-name check, the first roster
player with the given id simply gets the new name and level. -/
def saveEditPlayer (id : Nat) (rawName : String) (newLevel : Level)
    (st : AppState) : EditOutcome × AppState :=
  let newName := strTrim rawName
  if newName = "" then (.emptyName, st)
  else
    match st.players.find? (fun p => p.id == id) with
    | none => (.playerNotFound, st)
    | some _ =>
      let players' := updateFirstBy (fun p => p.id == id)
        (fun p => { p with name := newName, level := newLevel }) st.players
      (.saved, { st with players := players' })

/-! ### Permutation facts about the ordering passes -/

/-- Replacing position `k` (holding `v`) by `a` and re-consing `v` permutes
`a :: t`. -/
theorem cons_set_perm : ∀ (t : List α) (k : Nat) (v a : α),
    t.get? k = some v → (v :: t.set k a).Perm (a :: t) := by
  intro t
  induction t with
  | nil => intro k v a h; simp at h
  | cons x t ih =>
    intro k v a h
    match k with
    | 0 =>
      rw [List.get?_cons_zero] at h
      cases h
      exact List.Perm.swap a x t
    | k' + 1 =>
      rw [List.get?_cons_succ] at h
      exact (List.Perm.swap x v _).trans (((ih k' v a h).cons x).trans (List.Perm.swap a x t))

/-- `listSwap` is a permutation. -/
theorem listSwap_perm : ∀ (l : List α) (i j : Nat), (listSwap l i j).Perm l := by
  intro l
  induction l with
  | nil => intro i j; simp [listSwap]
  | cons x t ih =>
    intro i j
    match i, j with
    | 0, 0 => simp [listSwap]
    | 0, k + 1 =>
      rw [listSwap, List.get?_cons_zero, List.get?_cons_succ]
      cases h : t.get? k with
      | none => exact .refl _
      | some b => simpa using cons_set_perm t k b x h
    | m + 1, 0 =>
      rw [listSwap, List.get?_cons_zero, List.get?_cons_succ]
      cases h : t.get? m with
      | none => exact .refl _
      | some v => simpa using cons_set_perm t m v x h
    | m + 1, k + 1 =>
      rw [listSwap, List.get?_cons_succ, List.get?_cons_succ]
      cases h1 : t.get? m with
      | none => exact .refl _
      | some a =>
        cases h2 : t.get? k with
        | none => exact .refl _
        | some b =>
          have := ih m k
          rw [listSwap, h1, h2] at this
          simpa using this.cons x

theorem fyLoop_perm (r : Nat → Nat) : ∀ (n : Nat) (l : List α), (fyLoop r n l).Perm l := by
  intro n
  induction n with
  | zero => intro l; exact .refl _
  | succ i ih =>
    intro l
    exact (ih _).trans (listSwap_perm l (i + 1) (r (i + 1) % (i + 2)))

theorem shuffleArray_perm (r : Nat → Nat) (l : List α) : (shuffleArray r l).Perm l :=
  fyLoop_perm r (l.length - 1) l

theorem insertCmp_perm (cmp : α → α → Int) (x : α) :
    ∀ l : List α, (insertCmp cmp x l).Perm (x :: l) := by
  intro l
  induction l with
  | nil => exact .refl _
  | cons y ys ih =>
    rw [insertCmp]
    split
    · exact (ih.cons y).trans (List.Perm.swap x y ys)
    · exact .refl _

theorem sortByCmp_perm (cmp : α → α → Int) (l : List α) : (sortByCmp cmp l).Perm l := by
  suffices h : ∀ (l acc : List α),
      (l.foldl (fun a x => insertCmp cmp x a) acc).Perm (acc ++ l) by
    simpa using h l []
  intro l
  induction l with
  | nil => intro acc; simp
  | cons x xs ih =>
    intro acc
    refine (ih (insertCmp cmp x acc)).trans ?_
    refine (((insertCmp_perm cmp x acc).append_right xs).trans ?_)
    exact List.perm_middle.symm

theorem balanceLoop_perm : ∀ (fuel : Nat) (s : List Player), (balanceLoop fuel s).Perm s := by
  intro fuel
  induction fuel with
  | zero => intro s; exact .refl _
  | succ fuel ih =>
    intro s
    match s with
    | [] => exact .refl _
    | a :: t =>
      rw [balanceLoop]
      split
      · next hlen =>
        have ht : t ≠ [] := by
          intro h; rw [h] at hlen; simp at hlen
        cases hdrop : t.dropLast with
        | nil => exact .refl _
        | cons b u =>
          have hu : u ≠ [] := by
            intro h
            have hL : t.dropLast.length = t.length - 1 := List.length_dropLast t
            rw [hdrop, h] at hL
            simp only [List.length_cons, List.length_nil, List.length] at hL
            simp only [List.length_cons] at hlen
            omega
          have hts : t = (b :: u) ++ [t.getLast ht] := by
            have h0 := (List.dropLast_append_getLast ht).symm
            rw [hdrop] at h0
            exact h0
          have hus : u = u.dropLast ++ [u.getLast hu] :=
            (List.dropLast_append_getLast hu).symm
          change (a :: u.getLast?.getD b :: b :: t.getLast?.getD a ::
            balanceLoop fuel u.dropLast).Perm (a :: t)
          rw [List.getLast?_eq_getLast t ht, List.getLast?_eq_getLast u hu]
          simp only [Option.getD_some]
          refine List.Perm.cons a ?_
          conv_rhs => rw [hts]
          refine List.Perm.trans ((((ih u.dropLast).cons _).cons _).cons _) ?_
          refine List.Perm.trans (List.Perm.swap b (u.getLast hu) _) ?_
          refine List.Perm.cons b ?_
          show (u.getLast hu :: t.getLast ht :: u.dropLast).Perm (u ++ [t.getLast ht])
          conv_rhs => rw [hus]
          rw [List.append_assoc]
          exact @List.perm_append_comm _ [u.getLast hu, t.getLast ht] u.dropLast
      · exact .refl _

theorem balancePlayers_perm (mt : MatchType) (players : List Player) :
    (balancePlayers mt players).Perm players := by
  rw [balancePlayers]
  split
  · exact sortByCmp_perm _ players
  · exact (balanceLoop_perm _ _).trans (sortByCmp_perm _ players)

/-- Every player lands in exactly one of the four level groups. -/
theorem level_partition_perm (l : List Player) :
    (l.filter (fun p => p.level == .pro) ++ l.filter (fun p => p.level == .advanced) ++
      l.filter (fun p => p.level == .intermediate) ++
      l.filter (fun p => p.level == .beginner)).Perm l := by
  induction l with
  | nil => simp
  | cons p t ih =>
    cases hl : p.level with
    | pro =>
      simp only [List.filter_cons, hl, beq_iff_eq, reduceCtorEq, reduceIte]
      exact ih.cons p
    | advanced =>
      simp only [List.filter_cons, hl, beq_iff_eq, reduceCtorEq, reduceIte]
      exact ((List.perm_middle.append_right _).append_right _).trans (ih.cons p)
    | intermediate =>
      simp only [List.filter_cons, hl, beq_iff_eq, reduceCtorEq, reduceIte]
      exact (List.perm_middle.append_right _).trans (ih.cons p)
    | beginner =>
      simp only [List.filter_cons, hl, beq_iff_eq, reduceCtorEq, reduceIte]
      exact List.perm_middle.trans (ih.cons p)

theorem separateByLevel_perm (rnd : Nat → Nat → Nat) (players : List Player) :
    (separateByLevel rnd players).Perm players := by
  rw [separateByLevel]
  refine List.Perm.trans ?_ (level_partition_perm players)
  refine List.Perm.append ?_ (shuffleArray_perm _ _)
  refine List.Perm.append ?_ (shuffleArray_perm _ _)
  exact List.Perm.append (shuffleArray_perm _ _) (shuffleArray_perm _ _)

/-! ### Facts about the match-formation loop -/

theorem matchLoop_mem_spec (shuffled : List Player) (mt : MatchType) (ppm ppt : Nat)
    (ids : Nat → Nat) (now : Nat) (hppm : 2 * ppt = ppm)
    (hnd : (shuffled.map (·.id)).Nodup) :
    ∀ (fuel : Nat) (used : List Nat) (k : Nat),
      ∀ m ∈ matchLoop shuffled mt ppm ppt ids now used k fuel,
        m.team1.length = ppt ∧ m.team2.length = ppt ∧
        ∀ pid ∈ m.team1, pid ∉ m.team2 := by
  intro fuel
  induction fuel with
  | zero => intro used k m hm; simp [matchLoop] at hm
  | succ fuel ih =>
    intro used k m hm
    rw [matchLoop] at hm
    set available := shuffled.filter (fun p => !used.contains p.id) with havail
    by_cases hlt : available.length < ppm
    · simp only [if_pos hlt] at hm; simp at hm
    · simp only [if_neg hlt] at hm
      push_neg at hlt
      rcases List.mem_cons.1 hm with hhead | htail
      · subst hhead
        have hsel : (available.take ppm).length = ppm := by
          rw [List.length_take]; omega
        have hsub : (available.take ppm).Sublist shuffled :=
          (List.take_sublist ppm available).trans (List.filter_sublist shuffled)
        have hndsel : ((available.take ppm).map (·.id)).Nodup :=
          (hsub.map (·.id)).nodup hnd
        have hsplit : ((available.take ppm).take ppt).map (fun p => p.id) ++
            ((available.take ppm).drop ppt).map (fun p => p.id) =
            (available.take ppm).map (fun p => p.id) := by
          rw [← List.map_append, List.take_append_drop]
        refine ⟨?_, ?_, ?_⟩
        · simp only [List.length_map, List.length_take, hsel]; omega
        · simp only [List.length_map, List.length_drop, List.length_take, hsel]; omega
        · intro pid h1 h2
          have : (((available.take ppm).take ppt).map (fun p => p.id) ++
              ((available.take ppm).drop ppt).map (fun p => p.id)).Nodup := by
            rw [hsplit]; exact hndsel
          exact (List.disjoint_of_nodup_append this) h1 h2
      · exact ih _ _ m htail

theorem matchLoop_length_le_fuel (shuffled : List Player) (mt : MatchType)
    (ppm ppt : Nat) (ids : Nat → Nat) (now : Nat) :
    ∀ (fuel : Nat) (used : List Nat) (k : Nat),
      (matchLoop shuffled mt ppm ppt ids now used k fuel).length ≤ fuel := by
  intro fuel
  induction fuel with
  | zero => intro used k; simp [matchLoop]
  | succ fuel ih =>
    intro used k
    rw [matchLoop]
    split
    · simp
    · simpa using ih _ _

theorem matchLoop_length_le_div (shuffled : List Player) (mt : MatchType)
    (ppm ppt : Nat) (ids : Nat → Nat) (now : Nat) (hppm : 0 < ppm) :
    ∀ (fuel : Nat) (used : List Nat) (k : Nat),
      (matchLoop shuffled mt ppm ppt ids now used k fuel).length ≤
        (shuffled.filter (fun p => !used.contains p.id)).length / ppm := by
  intro fuel
  induction fuel with
  | zero => intro used k; simp [matchLoop]
  | succ fuel ih =>
    intro used k
    rw [matchLoop]
    set available := shuffled.filter (fun p => !used.contains p.id) with havail
    by_cases hlt : available.length < ppm
    · simp [if_pos hlt]
    · simp only [if_neg hlt]
      push_neg at hlt
      set selIds := (available.take ppm).map (fun x => x.id) with hselIds
      have hrec := ih (used ++ selIds) (k + 1)
      have hshrink :
          (shuffled.filter (fun p => !(used ++ selIds).contains p.id)).length ≤
          available.length - ppm := by
        have hpt : shuffled.filter (fun p => !(used ++ selIds).contains p.id) =
            available.filter (fun p => !selIds.contains p.id) := by
          rw [havail, List.filter_filter]
          refine List.filter_congr ?_
          intro x hx
          simp [Bool.not_or, Bool.and_comm]
        have hdecomp : available = available.take ppm ++ available.drop ppm :=
          (List.take_append_drop ppm available).symm
        have hselnil : (available.take ppm).filter
            (fun p => !selIds.contains p.id) = [] := by
          rw [List.filter_eq_nil_iff]
          intro x hx
          have hmem : x.id ∈ selIds := by
            rw [hselIds]; exact List.mem_map_of_mem _ hx
          simp [hmem]
        have happ : available.filter (fun p => !selIds.contains p.id) =
            (available.take ppm).filter (fun p => !selIds.contains p.id) ++
            (available.drop ppm).filter (fun p => !selIds.contains p.id) := by
          conv_lhs => rw [hdecomp]
          rw [List.filter_append]
        rw [hpt, happ, hselnil, List.nil_append]
        calc ((available.drop ppm).filter _).length
            ≤ (available.drop ppm).length := List.length_filter_le _ _
          _ = available.length - ppm := List.length_drop ppm available
      have hdiv : available.length / ppm = (available.length - ppm) / ppm + 1 :=
        Nat.div_eq_sub_div hppm hlt
      have := hrec.trans (Nat.div_le_div_right hshrink)
      simp only [List.length_cons]
      omega

theorem matchLoop_members_not_used (shuffled : List Player) (mt : MatchType)
    (ppm ppt : Nat) (ids : Nat → Nat) (now : Nat) :
    ∀ (fuel : Nat) (used : List Nat) (k : Nat),
      ∀ m ∈ matchLoop shuffled mt ppm ppt ids now used k fuel,
        ∀ pid ∈ m.members, used.contains pid = false := by
  intro fuel
  induction fuel with
  | zero => intro used k m hm; simp [matchLoop] at hm
  | succ fuel ih =>
    intro used k m hm
    rw [matchLoop] at hm
    set available := shuffled.filter (fun p => !used.contains p.id) with havail
    by_cases hlt : available.length < ppm
    · simp [if_pos hlt] at hm
    · simp only [if_neg hlt] at hm
      rcases List.mem_cons.1 hm with hhead | htail
      · subst hhead
        intro pid hpid
        have hmem : pid ∈ (available.take ppm).map (fun p => p.id) := by
          simp only [GameMatch.members] at hpid
          rw [← List.map_append, List.take_append_drop] at hpid
          exact hpid
        rcases List.mem_map.1 hmem with ⟨x, hx, hxid⟩
        have hxav : x ∈ available := List.mem_of_mem_take hx
        rw [havail] at hxav
        have := List.of_mem_filter hxav
        subst hxid
        simpa using this
      · intro pid hpid
        have := ih _ (k + 1) m htail pid hpid
        simp at this ⊢
        exact this.1

theorem matchLoop_pairwise_disjoint (shuffled : List Player) (mt : MatchType)
    (ppm ppt : Nat) (ids : Nat → Nat) (now : Nat) :
    ∀ (fuel : Nat) (used : List Nat) (k : Nat),
      List.Pairwise (fun m1 m2 => ∀ pid ∈ m1.members, pid ∉ m2.members)
        (matchLoop shuffled mt ppm ppt ids now used k fuel) := by
  intro fuel
  induction fuel with
  | zero => intro used k; simp [matchLoop]
  | succ fuel ih =>
    intro used k
    rw [matchLoop]
    set available := shuffled.filter (fun p => !used.contains p.id) with havail
    by_cases hlt : available.length < ppm
    · simp [if_pos hlt]
    · simp only [if_neg hlt]
      refine List.Pairwise.cons ?_ (ih _ _)
      intro m2 hm2 pid hpid hpid2
      have hmem : pid ∈ (available.take ppm).map (fun p => p.id) := by
        simp only [GameMatch.members] at hpid
        rw [← List.map_append, List.take_append_drop] at hpid
        exact hpid
      have := matchLoop_members_not_used shuffled mt ppm ppt ids now fuel
        (used ++ (available.take ppm).map (·.id)) (k + 1) m2 hm2 pid hpid2
      simp at this
      rw [List.map_take] at hmem
      exact this.2 hmem

theorem matchLoop_members_length (shuffled : List Player) (mt : MatchType)
    (ppm ppt : Nat) (ids : Nat → Nat) (now : Nat) (hppm : 2 * ppt = ppm) :
    ∀ (fuel : Nat) (used : List Nat) (k : Nat),
      ∀ m ∈ matchLoop shuffled mt ppm ppt ids now used k fuel,
        m.members.length = ppm := by
  intro fuel
  induction fuel with
  | zero => intro used k m hm; simp [matchLoop] at hm
  | succ fuel ih =>
    intro used k m hm
    rw [matchLoop] at hm
    set available := shuffled.filter (fun p => !used.contains p.id) with havail
    by_cases hlt : available.length < ppm
    · simp [if_pos hlt] at hm
    · simp only [if_neg hlt] at hm
      push_neg at hlt
      rcases List.mem_cons.1 hm with hhead | htail
      · subst hhead
        have hsel : (available.take ppm).length = ppm := by
          rw [List.length_take]; omega
        rw [GameMatch.members]
        simp only [List.length_append, List.length_map, List.length_take,
          List.length_drop, hsel]
        omega
      · exact ih _ _ m htail

/-- The fairness-sorted, mode-ordered pool inside `generateMatchesOrig` is a
permutation of the input pool. -/
theorem orderedPool_perm (settings : Settings) (rnd : Nat → Nat → Nat)
    (pool : List Player) :
    (sortByCmp (fun a b => ((a.matchCount : Int) - b.matchCount))
      (match settings.pairingMode with
       | .random => shuffleArray (rnd 0) pool
       | .balanced => balancePlayers settings.matchType pool
       | .separate => separateByLevel rnd pool)).Perm pool := by
  refine (sortByCmp_perm _ _).trans ?_
  cases settings.pairingMode
  · exact shuffleArray_perm _ _
  · exact balancePlayers_perm _ _
  · exact separateByLevel_perm _ _

/-- `generateMatchesOrig` is the match-formation loop run on the fairness-
sorted, mode-ordered pool. -/
theorem generateMatchesOrig_eq (settings : Settings) (rnd : Nat → Nat → Nat)
    (ids : Nat → Nat) (now : Nat) (pool : List Player) :
    generateMatchesOrig settings rnd ids now pool =
    matchLoop
      (sortByCmp (fun a b => ((a.matchCount : Int) - b.matchCount))
        (match settings.pairingMode with
         | .random => shuffleArray (rnd 0) pool
         | .balanced => balancePlayers settings.matchType pool
         | .separate => separateByLevel rnd pool))
      settings.matchType
      (if settings.matchType = .doubles then 4 else 2)
      (if settings.matchType = .doubles then 2 else 1)
      ids now [] 0 settings.courtCount := rfl

/-- C6: for every generated round (any pairing mode, any pool with
pairwise-distinct player ids), every emitted match has `team1` and `team2` of
exactly the size required by the configured match type (2 per team for
doubles, 1 for singles), and no player id occurs in both teams of the same
match. -/
theorem generateMatches_team_sizes_and_disjoint (settings : Settings)
    (rnd : Nat → Nat → Nat) (ids : Nat → Nat) (now : Nat) (pool : List Player)
    (hnd : (pool.map (·.id)).Nodup) :
    ∀ m ∈ generateMatches settings rnd ids now pool,
      m.team1.length = (if settings.matchType = .doubles then 2 else 1) ∧
      m.team2.length = (if settings.matchType = .doubles then 2 else 1) ∧
      ∀ pid ∈ m.team1, pid ∉ m.team2 := by
  intro m hm
  rw [generateMatches, generateMatchesOrig_eq] at hm
  have hnd' : ((pool.filter (fun p => !p.isResting)).map (·.id)).Nodup :=
    (((List.filter_sublist pool).map (·.id)).nodup hnd)
  have hperm := orderedPool_perm settings rnd (pool.filter (fun p => !p.isResting))
  have hndsorted :
      ((sortByCmp (fun a b => ((a.matchCount : Int) - b.matchCount))
        (match settings.pairingMode with
         | .random => shuffleArray (rnd 0) (pool.filter (fun p => !p.isResting))
         | .balanced => balancePlayers settings.matchType (pool.filter (fun p => !p.isResting))
         | .separate => separateByLevel rnd (pool.filter (fun p => !p.isResting)))).map
        (·.id)).Nodup :=
    ((hperm.map (·.id)).symm).nodup hnd'
  cases hmt : settings.matchType with
  | singles =>
    rw [hmt] at hm hndsorted
    simp only [reduceCtorEq, reduceIte] at hm ⊢
    exact matchLoop_mem_spec _ _ 2 1 ids now (by norm_num) hndsorted _ _ _ m hm
  | doubles =>
    rw [hmt] at hm hndsorted
    simp only [reduceIte] at hm ⊢
    exact matchLoop_mem_spec _ _ 4 2 ids now (by norm_num) hndsorted _ _ _ m hm

/-- Witness for the team-size claim at a concrete pool. -/
theorem generateMatches_team_sizes_and_disjoint_witness :
    (([Player.mk 1 "a" .pro 0 false false none none 0,
       Player.mk 2 "b" .advanced 0 false false none none 0,
       Player.mk 3 "c" .intermediate 0 false false none none 0,
       Player.mk 4 "d" .beginner 0 false false none none 0].map
        (fun p => p.id)).Nodup) ∧
    ∀ m ∈ generateMatches ⟨.doubles, .balanced, 1, false⟩ (fun _ _ => 0)
        (fun k => 100 + k) 7
        [Player.mk 1 "a" .pro 0 false false none none 0,
         Player.mk 2 "b" .advanced 0 false false none none 0,
         Player.mk 3 "c" .intermediate 0 false false none none 0,
         Player.mk 4 "d" .beginner 0 false false none none 0],
      m.team1.length = (if (⟨.doubles, .balanced, 1, false⟩ : Settings).matchType = .doubles then 2 else 1) ∧
      m.team2.length = (if (⟨.doubles, .balanced, 1, false⟩ : Settings).matchType = .doubles then 2 else 1) ∧
      ∀ pid ∈ m.team1, pid ∉ m.team2 :=
  ⟨by decide,
   generateMatches_team_sizes_and_disjoint ⟨.doubles, .balanced, 1, false⟩
     (fun _ _ => 0) (fun k => 100 + k) 7 _ (by decide)⟩

/-- C7: the number of matches emitted by one pairing-engine pass never
exceeds the configured court count, nor
`⌊eligible players / playersPerMatch⌋`; each emitted match consumes exactly
`playersPerMatch` member slots and no player id is reused across two matches
of the same round. -/
theorem generateMatches_count_bounds_and_no_reuse (settings : Settings)
    (rnd : Nat → Nat → Nat) (ids : Nat → Nat) (now : Nat) (pool : List Player) :
    (generateMatches settings rnd ids now pool).length ≤ settings.courtCount ∧
    (generateMatches settings rnd ids now pool).length ≤
      (pool.filter (fun p => !p.isResting)).length /
        (if settings.matchType = .doubles then 4 else 2) ∧
    (∀ m ∈ generateMatches settings rnd ids now pool,
      m.members.length = (if settings.matchType = .doubles then 4 else 2)) ∧
    List.Pairwise (fun m1 m2 => ∀ pid ∈ m1.members, pid ∉ m2.members)
      (generateMatches settings rnd ids now pool) := by
  rw [generateMatches, generateMatchesOrig_eq]
  have hperm := orderedPool_perm settings rnd (pool.filter (fun p => !p.isResting))
  refine ⟨matchLoop_length_le_fuel _ _ _ _ _ _ _ _ _, ?_, ?_, ?_⟩
  · have hdiv := matchLoop_length_le_div
      (sortByCmp (fun a b => ((a.matchCount : Int) - b.matchCount))
        (match settings.pairingMode with
         | .random => shuffleArray (rnd 0) (pool.filter (fun p => !p.isResting))
         | .balanced => balancePlayers settings.matchType (pool.filter (fun p => !p.isResting))
         | .separate => separateByLevel rnd (pool.filter (fun p => !p.isResting))))
      settings.matchType
      (if settings.matchType = .doubles then 4 else 2)
      (if settings.matchType = .doubles then 2 else 1)
      ids now (by split <;> norm_num) settings.courtCount [] 0
    have hfull :
        (sortByCmp (fun a b => ((a.matchCount : Int) - b.matchCount))
          (match settings.pairingMode with
           | .random => shuffleArray (rnd 0) (pool.filter (fun p => !p.isResting))
           | .balanced => balancePlayers settings.matchType (pool.filter (fun p => !p.isResting))
           | .separate => separateByLevel rnd (pool.filter (fun p => !p.isResting)))).filter
          (fun p => !([] : List Nat).contains p.id) =
        sortByCmp (fun a b => ((a.matchCount : Int) - b.matchCount))
          (match settings.pairingMode with
           | .random => shuffleArray (rnd 0) (pool.filter (fun p => !p.isResting))
           | .balanced => balancePlayers settings.matchType (pool.filter (fun p => !p.isResting))
           | .separate => separateByLevel rnd (pool.filter (fun p => !p.isResting))) := by
      simp
    rw [hfull] at hdiv
    rwa [hperm.length_eq] at hdiv
  · intro m hm
    cases hmt : settings.matchType with
    | singles =>
      rw [hmt] at hm
      simp only [reduceCtorEq, reduceIte] at hm ⊢
      exact matchLoop_members_length _ _ 2 1 ids now (by norm_num) _ _ _ m hm
    | doubles =>
      rw [hmt] at hm
      simp only [reduceIte] at hm ⊢
      exact matchLoop_members_length _ _ 4 2 ids now (by norm_num) _ _ _ m hm
  · exact matchLoop_pairwise_disjoint _ _ _ _ _ _ _ _ _

/-- C1 (the code against the claim): with the four players of weights
`[4,3,2,1]` (pro, advanced, intermediate, beginner; ids 1,2,3,4), equal match
counts, doubles, balanced mode and one court, the engine emits
`team1 = [pro, intermediate]` vs `team2 = [advanced, beginner]` — it pairs
the strongest with the 2nd-weakest, not with the weakest as the spec, the
claim and the code's own comment ("Pair strongest with weakest for each
team") demand. -/
theorem balancedDoubles_pairs_strongest_with_secondWeakest :
    ((generateMatches ⟨.doubles, .balanced, 1, false⟩ (fun _ _ => 0)
        (fun k => 100 + k) 7
        [Player.mk 1 "a" .pro 0 false false none none 0,
         Player.mk 2 "b" .advanced 0 false false none none 0,
         Player.mk 3 "c" .intermediate 0 false false none none 0,
         Player.mk 4 "d" .beginner 0 false false none none 0]).map
      (fun m => (m.team1, m.team2)) = [([1, 3], [2, 4])]) ∧
    ((generateMatches ⟨.doubles, .balanced, 1, false⟩ (fun _ _ => 0)
        (fun k => 100 + k) 7
        [Player.mk 1 "a" .pro 0 false false none none 0,
         Player.mk 2 "b" .advanced 0 false false none none 0,
         Player.mk 3 "c" .intermediate 0 false false none none 0,
         Player.mk 4 "d" .beginner 0 false false none none 0]).map
      (fun m => (m.team1, m.team2)) ≠ [([1, 4], [2, 3])]) := by
  constructor
  · decide
  · decide

/-! ### C2: the generate-round precondition -/

/-- A shared concrete-state builder for examples: a fresh roster entry. -/
def mkPlayer (id : Nat) (lv : Level) (mc : Nat) (playing resting : Bool) : Player :=
  { id := id, name := toString id, level := lv, matchCount := mc
    isPlaying := playing, isResting := resting, wins := none, losses := none
    createdAt := 0 }

/-- Four resting (but idle) players, doubles, balanced mode: zero players are
eligible in the claim's sense, yet the round-size check passes. -/
def restingState : AppState :=
  { players := [mkPlayer 1 .pro 0 false true, mkPlayer 2 .advanced 0 false true,
                mkPlayer 3 .intermediate 0 false true, mkPlayer 4 .beginner 0 false true]
    allMatches := [], currentMatches := [], matchQueue := [], rounds := []
    settings := ⟨.doubles, .balanced, 2, false⟩, currentRound := 0 }

/-- C2 (counterexample): in `restingState` there are zero eligible players
(`isPlaying = false` and `isResting = false`) — fewer than the 4 a doubles
round needs — yet `generateRound` does not fail: it increments the round
counter and appends an empty round, because its precondition counts all
non-busy players, resting or not. -/
theorem generateRound_proceeds_despite_no_eligible_players :
    (restingState.players.filter
      (fun p => !p.isPlaying && !p.isResting)).length < 4 ∧
    (generateRound 50 (fun _ _ => 0) (fun k => 100 + k) 7 restingState).1 ≠
      GenOutcome.insufficientPlayers ∧
    (generateRound 50 (fun _ _ => 0) (fun k => 100 + k) 7 restingState).2 ≠
      restingState := by
  refine ⟨by decide, by decide, by decide⟩

/-- C2 (amended): the insufficient-players guard of `generateRound` counts
the players with `isPlaying = false` only (resting players count toward the
threshold).  Whenever fewer than `playersPerMatch` non-busy players exist,
the operation fails with the insufficient-players error and leaves the whole
session state unchanged. -/
theorem generateRound_insufficient_nonbusy_no_change (roundId : Nat)
    (rnd : Nat → Nat → Nat) (ids : Nat → Nat) (now : Nat) (st : AppState)
    (h : (st.players.filter (fun p => !p.isPlaying)).length <
      (if st.settings.matchType = .doubles then 4 else 2)) :
    generateRound roundId rnd ids now st = (.insufficientPlayers, st) := by
  rw [generateRound]
  simp only [if_pos h]

/-- Witness: three idle players cannot seat a doubles round. -/
theorem generateRound_insufficient_nonbusy_no_change_witness :
    (([mkPlayer 1 .pro 0 false false, mkPlayer 2 .advanced 0 false false,
       mkPlayer 3 .beginner 0 false false] :
        List Player).filter (fun p => !p.isPlaying)).length <
      (if (⟨.doubles, .random, 2, false⟩ : Settings).matchType = .doubles then 4 else 2) ∧
    generateRound 50 (fun _ _ => 0) (fun k => 100 + k) 7
      { players := [mkPlayer 1 .pro 0 false false, mkPlayer 2 .advanced 0 false false,
                    mkPlayer 3 .beginner 0 false false]
        allMatches := [], currentMatches := [], matchQueue := [], rounds := []
        settings := ⟨.doubles, .random, 2, false⟩, currentRound := 0 } =
      (.insufficientPlayers,
       { players := [mkPlayer 1 .pro 0 false false, mkPlayer 2 .advanced 0 false false,
                     mkPlayer 3 .beginner 0 false false]
         allMatches := [], currentMatches := [], matchQueue := [], rounds := []
         settings := ⟨.doubles, .random, 2, false⟩, currentRound := 0 }) :=
  ⟨by decide, generateRound_insufficient_nonbusy_no_change 50 _ _ 7 _ (by decide)⟩

/-! ### C3: bulk import -/

/-- A valid payload that carries only a `players` list. -/
def playersOnlyPayload : ImportPayload :=
  .json { players := .arr [], allMatches := none, currentMatches := none
          matchQueue := none, rounds := none, settings := none, currentRound := none }

/-- A prior state with a non-empty match history. -/
def stateWithHistory : AppState :=
  { players := [mkPlayer 1 .pro 0 false false]
    allMatches := [{ id := 9, type := .doubles, team1 := [1, 2], team2 := [3, 4]
                     status := .completed, court := none, roundId := none
                     roundNumber := none, createdAt := 0, startedAt := none
                     completedAt := none, scores := none, winner := none }]
    currentMatches := [], matchQueue := [], rounds := []
    settings := ⟨.doubles, .random, 2, false⟩, currentRound := 3 }

/-- C3 (counterexample): a payload that passes validation (its `players`
field is an array) does not replace the state wholesale — `Object.assign`
merges, so the prior match history and round counter survive an import whose
snapshot does not mention them. -/
theorem doImport_valid_payload_is_merge_not_replace :
    (doImport playersOnlyPayload stateWithHistory).1 = .imported ∧
    (doImport playersOnlyPayload stateWithHistory).2.players = [] ∧
    (doImport playersOnlyPayload stateWithHistory).2.allMatches =
      stateWithHistory.allMatches ∧
    stateWithHistory.allMatches ≠ [] ∧
    (doImport playersOnlyPayload stateWithHistory).2.currentRound = 3 := by
  refine ⟨by decide, by decide, by decide, by decide, by decide⟩

/-- C3 (amended): a payload that is empty, not JSON, or whose `players`
field is missing or not an array is rejected atomically — the error outcome
is reported and the prior state is preserved bit for bit.  A payload passing
validation overwrites exactly the top-level state fields present in the
snapshot and keeps the prior value of every absent field (wholesale
replacement happens only when the snapshot carries every field). -/
theorem doImport_atomic_reject_and_fieldwise_merge (payload : ImportPayload)
    (st : AppState) :
    ((doImport payload st).1 ≠ .imported → (doImport payload st).2 = st) ∧
    (∀ snap newPlayers, payload = .json snap → snap.players = .arr newPlayers →
      (doImport payload st).1 = .imported ∧
      (doImport payload st).2.players = newPlayers ∧
      (doImport payload st).2.allMatches = snap.allMatches.getD st.allMatches ∧
      (doImport payload st).2.currentMatches =
        snap.currentMatches.getD st.currentMatches ∧
      (doImport payload st).2.matchQueue = snap.matchQueue.getD st.matchQueue ∧
      (doImport payload st).2.rounds = snap.rounds.getD st.rounds ∧
      (doImport payload st).2.settings = snap.settings.getD st.settings ∧
      (doImport payload st).2.currentRound =
        snap.currentRound.getD st.currentRound) := by
  constructor
  · intro hne
    cases payload with
    | empty => rfl
    | notJson => rfl
    | json snap =>
      cases hp : snap.players with
      | absent => simp [doImport, hp]
      | notArray => simp [doImport, hp]
      | arr newPlayers => simp [doImport, hp] at hne
  · intro snap newPlayers hpay hp
    subst hpay
    simp [doImport, hp]

/-- Witness: the merge clause applied to the concrete players-only payload,
and the reject clause applied to a malformed payload. -/
theorem doImport_atomic_reject_and_fieldwise_merge_witness :
    (doImport .notJson stateWithHistory).2 = stateWithHistory ∧
    (doImport playersOnlyPayload stateWithHistory).1 = .imported ∧
    (doImport playersOnlyPayload stateWithHistory).2.allMatches =
      stateWithHistory.allMatches :=
  ⟨(doImport_atomic_reject_and_fieldwise_merge .notJson stateWithHistory).1
      (by decide),
   ((doImport_atomic_reject_and_fieldwise_merge playersOnlyPayload
      stateWithHistory).2 _ _ rfl rfl).1,
   (((doImport_atomic_reject_and_fieldwise_merge playersOnlyPayload
      stateWithHistory).2 _ _ rfl rfl).2.2).1⟩

/-! ### C5: capacity errors of the dispatch scheduler -/

theorem extractFirstBy_eq_none {hit : α → Bool} :
    ∀ {l : List α}, (∀ x ∈ l, hit x = false) → extractFirstBy hit l = none := by
  intro l
  induction l with
  | nil => intro _; rfl
  | cons x xs ih =>
    intro h
    rw [extractFirstBy]
    rw [h x (List.mem_cons_self x xs)]
    simp only [Bool.false_eq_true, if_false]
    rw [ih (fun y hy => h y (List.mem_cons_of_mem x hy))]

/-- When every court fails to find an eligible queued match from the very
first scan, the loop returns its input state untouched. -/
theorem startLoop_stuck (now : Nat) (multiCourt : Bool) (courts : List Nat)
    (s : LoopState) (h : ∀ m ∈ s.queue, matchEligibleB s.players multiCourt m = false) :
    startLoop now multiCourt courts s = s := by
  cases courts with
  | nil => rfl
  | cons c cs =>
    rw [startLoop, extractFirstBy_eq_none (fun m hm => h m hm)]

/-- C5: when the pending queue is empty, or every court `1..courtCount` is
busy, or no queued match is eligible for a court, `startNextMatch` reports
the corresponding capacity condition and changes no component of the session
state. -/
theorem startNextMatch_capacity_noop (now : Nat) (st : AppState) :
    (st.matchQueue = [] → startNextMatch now st = (.emptyQueue, st)) ∧
    (st.matchQueue ≠ [] → getAvailableCourts st = [] →
      startNextMatch now st = (.courtsFull, st)) ∧
    (st.matchQueue ≠ [] → getAvailableCourts st ≠ [] →
      (∀ m ∈ st.matchQueue, matchEligibleB st.players st.settings.multiCourt m = false) →
      startNextMatch now st = (.nonePlayable, st)) := by
  refine ⟨?_, ?_, ?_⟩
  · intro h
    rw [startNextMatch, if_pos h]
  · intro hq hc
    rw [startNextMatch, if_neg hq]
    simp only [hc, if_pos]
  · intro hq hc hall
    rw [startNextMatch, if_neg hq]
    simp only [if_neg hc]
    rw [startLoop_stuck now st.settings.multiCourt _ _ (fun m hm => hall m hm)]
    rfl

/-- Witness: the empty-queue and ineligible-queue clauses at concrete states. -/
theorem startNextMatch_capacity_noop_witness :
    startNextMatch 5
      { players := [], allMatches := [], currentMatches := [], matchQueue := []
        rounds := [], settings := ⟨.doubles, .random, 2, false⟩, currentRound := 0 } =
      (.emptyQueue,
       { players := [], allMatches := [], currentMatches := [], matchQueue := []
         rounds := [], settings := ⟨.doubles, .random, 2, false⟩, currentRound := 0 }) ∧
    startNextMatch 5
      { players := [mkPlayer 1 .pro 0 true false, mkPlayer 2 .advanced 0 true false]
        allMatches := [], currentMatches := []
        matchQueue := [{ id := 11, type := .singles, team1 := [1], team2 := [2]
                         status := .pending, court := none, roundId := none
                         roundNumber := none, createdAt := 0, startedAt := none
                         completedAt := none, scores := none, winner := none }]
        rounds := [], settings := ⟨.singles, .random, 2, false⟩, currentRound := 0 } =
      (.nonePlayable,
       { players := [mkPlayer 1 .pro 0 true false, mkPlayer 2 .advanced 0 true false]
         allMatches := [], currentMatches := []
         matchQueue := [{ id := 11, type := .singles, team1 := [1], team2 := [2]
                          status := .pending, court := none, roundId := none
                          roundNumber := none, createdAt := 0, startedAt := none
                          completedAt := none, scores := none, winner := none }]
         rounds := [], settings := ⟨.singles, .random, 2, false⟩, currentRound := 0 }) :=
  ⟨(startNextMatch_capacity_noop 5 _).1 (by decide),
   (startNextMatch_capacity_noop 5 _).2.2 (by decide) (by decide) (by decide)⟩

/-! ### C4: mutual exclusion across simultaneously playing matches -/

/-- The busy flag of the first roster hit for `pid` (`true` when the id is
absent from the roster, since an absent member can never make a queued match
eligible). -/
def busyPred (players : List Player) (pid : Nat) : Bool :=
  match players.find? (fun p => p.id == pid) with
  | some q => q.isPlaying
  | none => true

/-- Every member of every listed match is busy (as seen through roster
lookup). -/
def busyConsistentB (players : List Player) (ms : List GameMatch) : Bool :=
  ms.all (fun m => m.members.all (busyPred players))

/-- No player id occurs in the teams of two distinct listed matches. -/
def noSharedMembersB : List GameMatch → Bool
  | [] => true
  | m :: ms =>
    ms.all (fun m2 => m.members.all (fun pid => !m2.members.contains pid)) &&
      noSharedMembersB ms

theorem extractFirstBy_hit {hit : α → Bool} :
    ∀ {l : List α} {y : α} {ys : List α},
      extractFirstBy hit l = some (y, ys) → hit y = true := by
  intro l
  induction l with
  | nil => intro y ys h; simp [extractFirstBy] at h
  | cons x xs ih =>
    intro y ys h
    rw [extractFirstBy] at h
    by_cases hx : hit x
    · rw [if_pos hx] at h
      cases h
      exact hx
    · rw [if_neg hx] at h
      cases hrec : extractFirstBy hit xs with
      | none => rw [hrec] at h; cases h
      | some pair =>
        rw [hrec] at h
        obtain ⟨y', ys'⟩ := pair
        cases h
        exact ih hrec

theorem find?_updateFirstBy_same (f : Player → Player) (pid : Nat)
    (hid : ∀ p, (f p).id = p.id) :
    ∀ l : List Player,
      (updateFirstBy (fun p => p.id == pid) f l).find? (fun p => p.id == pid) =
        (l.find? (fun p => p.id == pid)).map f := by
  intro l
  induction l with
  | nil => rfl
  | cons x xs ih =>
    rw [updateFirstBy]
    by_cases hx : (x.id == pid) = true
    · rw [if_pos hx,
        @List.find?_cons_of_pos _ (fun p => p.id == pid) (f x) xs
          (by show ((f x).id == pid) = true; rw [hid x]; exact hx),
        @List.find?_cons_of_pos _ (fun p => p.id == pid) x xs hx]
      rfl
    · rw [if_neg hx,
        @List.find?_cons_of_neg _ (fun p => p.id == pid) x
          (updateFirstBy (fun p => p.id == pid) f xs) hx,
        @List.find?_cons_of_neg _ (fun p => p.id == pid) x xs hx]
      exact ih

theorem find?_updateFirstBy_other (f : Player → Player) (pid pid' : Nat)
    (hne : pid' ≠ pid) (hid : ∀ p, (f p).id = p.id) :
    ∀ l : List Player,
      (updateFirstBy (fun p => p.id == pid) f l).find? (fun p => p.id == pid') =
        l.find? (fun p => p.id == pid') := by
  intro l
  induction l with
  | nil => rfl
  | cons x xs ih =>
    rw [updateFirstBy]
    by_cases hx : (x.id == pid) = true
    · have hx' : x.id = pid := by simpa using hx
      have hfx : ¬((f x).id == pid') = true := by
        rw [hid x, hx']
        simpa using fun h => hne h.symm
      have hxx : ¬(x.id == pid') = true := by
        rw [hx']
        simpa using fun h => hne h.symm
      rw [if_pos hx,
        @List.find?_cons_of_neg _ (fun p => p.id == pid') (f x) xs hfx,
        @List.find?_cons_of_neg _ (fun p => p.id == pid') x xs hxx]
    · rw [if_neg hx]
      by_cases hx' : (x.id == pid') = true
      · rw [@List.find?_cons_of_pos _ (fun p => p.id == pid') x
            (updateFirstBy (fun p => p.id == pid) f xs) hx',
          @List.find?_cons_of_pos _ (fun p => p.id == pid') x xs hx']
      · rw [@List.find?_cons_of_neg _ (fun p => p.id == pid') x
            (updateFirstBy (fun p => p.id == pid) f xs) hx',
          @List.find?_cons_of_neg _ (fun p => p.id == pid') x xs hx']
        exact ih

/-- One busy-marking step makes (or keeps) the looked-up player busy. -/
theorem busyPred_mark_self (pid : Nat) (l : List Player) :
    busyPred (updateFirstBy (fun p => p.id == pid)
      (fun p => { p with isPlaying := true, matchCount := p.matchCount + 1 }) l)
      pid = true := by
  rw [busyPred, find?_updateFirstBy_same
    (fun p => { p with isPlaying := true, matchCount := p.matchCount + 1 })
    pid (fun p => rfl) l]
  cases l.find? (fun p => p.id == pid) <;> rfl

theorem busyPred_mark_other (pid pid' : Nat) (hne : pid' ≠ pid) (l : List Player) :
    busyPred (updateFirstBy (fun p => p.id == pid)
      (fun p => { p with isPlaying := true, matchCount := p.matchCount + 1 }) l)
      pid' = busyPred l pid' := by
  rw [busyPred, find?_updateFirstBy_other
    (fun p => { p with isPlaying := true, matchCount := p.matchCount + 1 })
    pid pid' hne (fun p => rfl) l, busyPred]

theorem busyPred_markPlaying_mono (pids : List Nat) :
    ∀ (l : List Player) (pid : Nat), busyPred l pid = true →
      busyPred (markPlaying pids l) pid = true := by
  induction pids with
  | nil => intro l pid h; exact h
  | cons q qs ih =>
    intro l pid h
    rw [markPlaying, List.foldl_cons]
    by_cases hq : pid = q
    · subst hq
      exact ih _ pid (busyPred_mark_self pid l)
    · exact ih _ pid (by rw [busyPred_mark_other q pid hq l]; exact h)

theorem busyPred_markPlaying_mem (pids : List Nat) :
    ∀ (l : List Player) (pid : Nat), pid ∈ pids →
      busyPred (markPlaying pids l) pid = true := by
  induction pids with
  | nil => intro l pid h; cases h
  | cons q qs ih =>
    intro l pid h
    rw [markPlaying, List.foldl_cons]
    rcases List.mem_cons.1 h with hq | hqs
    · subst hq
      exact busyPred_markPlaying_mono qs _ pid (busyPred_mark_self pid l)
    · exact ih _ pid hqs

/-- Under disabled multi-court, a dispatchable match has every member present
in the roster with `isPlaying = false`. -/
theorem busyPred_of_eligible (players : List Player) (m : GameMatch)
    (h : matchEligibleB players false m = true) :
    ∀ pid ∈ m.members, busyPred players pid = false := by
  intro pid hpid
  have := (List.all_eq_true.1 h) pid hpid
  rw [eligiblePlayerB] at this
  rw [busyPred]
  cases hf : players.find? (fun p => p.id == pid) with
  | none => rw [hf] at this; cases this
  | some q =>
    rw [hf] at this
    simpa using this

theorem busyConsistentB_iff (players : List Player) (ms : List GameMatch) :
    busyConsistentB players ms = true ↔
      ∀ m ∈ ms, ∀ pid ∈ m.members, busyPred players pid = true := by
  simp [busyConsistentB, List.all_eq_true]

theorem noShared_append_singleton :
    ∀ (ms : List GameMatch) (m : GameMatch),
      noSharedMembersB ms = true →
      (∀ m2 ∈ ms, ∀ pid ∈ m2.members, pid ∉ m.members) →
      noSharedMembersB (ms ++ [m]) = true := by
  intro ms
  induction ms with
  | nil => intro m _ _; rfl
  | cons m0 ms ih =>
    intro m h hdis
    rw [noSharedMembersB] at h
    rcases Bool.and_eq_true_iff.mp h with ⟨hall, hrest⟩
    show (noSharedMembersB (m0 :: (ms ++ [m]))) = true
    rw [noSharedMembersB, Bool.and_eq_true]
    constructor
    · rw [List.all_append, Bool.and_eq_true]
      refine ⟨hall, ?_⟩
      simp only [List.all_cons, List.all_nil, Bool.and_true]
      rw [List.all_eq_true]
      intro pid hpid
      have := hdis m0 (List.mem_cons_self m0 ms) pid hpid
      simpa using this
    · exact ih m hrest (fun m2 hm2 => hdis m2 (List.mem_cons_of_mem m0 hm2))

/-- The court-filling loop preserves the pair of invariants: pairwise member
disjointness of the active matches, and bust-flag consistency (every member
of an active match looks busy through roster lookup). -/
theorem startLoop_invariant (now : Nat) :
    ∀ (courts : List Nat) (s : LoopState),
      noSharedMembersB s.current = true →
      busyConsistentB s.players s.current = true →
      noSharedMembersB (startLoop now false courts s).current = true ∧
      busyConsistentB (startLoop now false courts s).players
        (startLoop now false courts s).current = true := by
  intro courts
  induction courts with
  | nil => intro s h1 h2; exact ⟨h1, h2⟩
  | cons c cs ih =>
    intro s h1 h2
    rw [startLoop]
    cases hex : extractFirstBy (matchEligibleB s.players false) s.queue with
    | none => exact ⟨h1, h2⟩
    | some pair =>
      obtain ⟨m, queue'⟩ := pair
      have helig : matchEligibleB s.players false m = true := extractFirstBy_hit hex
      have hmm : ({ m with
          status := .playing
          court := some c
          startedAt := some now } : GameMatch).members = m.members := rfl
      refine ih _ ?_ ?_
      · refine noShared_append_singleton s.current _ h1 ?_
        intro m2 hm2 pid hpid hpidm
        rw [hmm] at hpidm
        have hb := (busyConsistentB_iff s.players s.current).1 h2 m2 hm2 pid hpid
        have hf := busyPred_of_eligible s.players m helig pid hpidm
        rw [hb] at hf
        cases hf
      · rw [busyConsistentB_iff]
        intro m2 hm2 pid hpid
        rcases List.mem_append.1 hm2 with hold | hnew
        · exact busyPred_markPlaying_mono m.members _ pid
            ((busyConsistentB_iff s.players s.current).1 h2 m2 hold pid hpid)
        · have : m2 = { m with
              status := .playing
              court := some c
              startedAt := some now } := by simpa using hnew
          subst this
          rw [hmm] at hpid
          exact busyPred_markPlaying_mem m.members _ pid hpid

/-- C4 (amended): provided the state is busy-consistent — every member of
every active match is marked busy in the roster, which every reachable state
of the app satisfies but an arbitrary imported state need not — `startNext`
with multi-court disabled preserves the invariant that no player id occurs in
two distinct playing matches. -/
theorem startNextMatch_no_overlap (now : Nat) (st : AppState)
    (hmc : st.settings.multiCourt = false)
    (h1 : noSharedMembersB st.currentMatches = true)
    (h2 : busyConsistentB st.players st.currentMatches = true) :
    noSharedMembersB (startNextMatch now st).2.currentMatches = true := by
  rw [startNextMatch]
  by_cases hq : st.matchQueue = []
  · rw [if_pos hq]
    exact h1
  · rw [if_neg hq]
    by_cases hc : getAvailableCourts st = []
    · simp only [hc, if_pos]
      exact h1
    · simp only [if_neg hc, hmc]
      have hinv := startLoop_invariant now (getAvailableCourts st)
        { players := st.players, queue := st.matchQueue
          current := st.currentMatches, allMatches := st.allMatches, started := 0 }
        h1 h2
      split
      · exact h1
      · exact hinv.1

/-- C4 (counterexample to the claim as stated): an importable state whose
busy flags are inconsistent — an active match whose members are not marked
busy — satisfies the claim's hypotheses (multi-court disabled, no duplicated
player across playing matches) and yet `startNext` dispatches a queued match
sharing both members with the active one. -/
def inconsistentState : AppState :=
  { players := [mkPlayer 1 .pro 0 false false, mkPlayer 2 .advanced 0 false false]
    allMatches := []
    currentMatches := [{ id := 10, type := .singles, team1 := [1], team2 := [2]
                         status := .playing, court := some 1, roundId := none
                         roundNumber := none, createdAt := 0, startedAt := some 0
                         completedAt := none, scores := none, winner := none }]
    matchQueue := [{ id := 11, type := .singles, team1 := [1], team2 := [2]
                     status := .pending, court := none, roundId := none
                     roundNumber := none, createdAt := 0, startedAt := none
                     completedAt := none, scores := none, winner := none }]
    rounds := [], settings := ⟨.singles, .random, 2, false⟩, currentRound := 1 }

theorem startNextMatch_overlap_on_inconsistent_state :
    inconsistentState.settings.multiCourt = false ∧
    noSharedMembersB inconsistentState.currentMatches = true ∧
    noSharedMembersB (startNextMatch 5 inconsistentState).2.currentMatches = false := by
  refine ⟨by decide, by decide, by decide⟩

/-- Witness: the preserved invariant at a concrete consistent state (one
idle pair queued for a singles match on a free court). -/
theorem startNextMatch_no_overlap_witness :
    noSharedMembersB (startNextMatch 5
      { players := [mkPlayer 1 .pro 0 false false, mkPlayer 2 .advanced 0 false false]
        allMatches := [], currentMatches := []
        matchQueue := [{ id := 11, type := .singles, team1 := [1], team2 := [2]
                         status := .pending, court := none, roundId := none
                         roundNumber := none, createdAt := 0, startedAt := none
                         completedAt := none, scores := none, winner := none }]
        rounds := [], settings := ⟨.singles, .random, 2, false⟩,
        currentRound := 1 }).2.currentMatches = true :=
  startNextMatch_no_overlap 5 _ (by decide) (by decide) (by decide)

/-! ### C9: completing matches releases the players -/

/-- With pairwise-distinct roster ids, rewriting the first hit is rewriting
the unique hit, i.e. a pointwise map. -/
theorem updateFirstBy_eq_map_of_nodup (f : Player → Player) (pid : Nat) :
    ∀ l : List Player, (l.map (·.id)).Nodup →
      updateFirstBy (fun p => p.id == pid) f l =
        l.map (fun p => if p.id == pid then f p else p) := by
  intro l
  induction l with
  | nil => intro _; rfl
  | cons x xs ih =>
    intro hnd
    rw [List.map_cons, List.nodup_cons] at hnd
    rw [updateFirstBy, List.map_cons]
    by_cases hx : (x.id == pid) = true
    · rw [if_pos hx, if_pos hx]
      have hxs : xs.map (fun p => if (p.id == pid) = true then f p else p) = xs := by
        have hcongr : ∀ p ∈ xs, (if (p.id == pid) = true then f p else p) = p := by
          intro p hp
          rw [if_neg]
          intro hpe
          refine hnd.1 ?_
          have : p.id = pid := by simpa using hpe
          have hx' : x.id = pid := by simpa using hx
          rw [hx', ← this]
          exact List.mem_map_of_mem (·.id) hp
        rw [List.map_congr_left hcongr, List.map_id']
      rw [hxs]
    · rw [if_neg hx, if_neg hx, ih hnd.2]

/-- `releasePlayers` clears the busy flag of exactly the listed ids
(pointwise map form; the flag-clearing is idempotent, so duplicated ids in
the member list are harmless). -/
theorem releasePlayers_eq_map :
    ∀ (pids : List Nat) (l : List Player), (l.map (·.id)).Nodup →
      releasePlayers pids l =
        l.map (fun p => if pids.contains p.id then { p with isPlaying := false } else p) := by
  intro pids
  induction pids with
  | nil =>
    intro l _
    rw [releasePlayers, List.foldl_nil]
    have : ∀ p ∈ l, (if ([] : List Nat).contains p.id then
        { p with isPlaying := false } else p) = p := by
      intro p _; rfl
    rw [List.map_congr_left this, List.map_id']
  | cons q qs ih =>
    intro l hnd
    have hcons : releasePlayers (q :: qs) l = releasePlayers qs
        (updateFirstBy (fun p => p.id == q)
          (fun p => { p with isPlaying := false }) l) := rfl
    have hstep := updateFirstBy_eq_map_of_nodup
      (fun p => { p with isPlaying := false }) q l hnd
    have hnd' : ((l.map (fun p => if (p.id == q) = true then
        { p with isPlaying := false } else p)).map (·.id)).Nodup := by
      rw [List.map_map]
      have hpt : ∀ p ∈ l, ((fun p => p.id) ∘ fun p =>
          if (p.id == q) = true then { p with isPlaying := false } else p) p =
          p.id := by
        intro p _
        show (if (p.id == q) = true then ({ p with isPlaying := false } : Player)
          else p).id = p.id
        by_cases h : (p.id == q) = true
        · rw [if_pos h]
        · rw [if_neg h]
      rw [List.map_congr_left hpt]
      exact hnd
    rw [hcons, hstep, ih _ hnd', List.map_map]
    refine List.map_congr_left ?_
    intro p _
    show (if qs.contains (if (p.id == q) = true then
        ({ p with isPlaying := false } : Player) else p).id then
        ({ (if (p.id == q) = true then ({ p with isPlaying := false } : Player)
          else p) with isPlaying := false } : Player)
      else (if (p.id == q) = true then ({ p with isPlaying := false } : Player)
        else p)) =
      (if (q :: qs).contains p.id then ({ p with isPlaying := false } : Player)
        else p)
    by_cases hq : (p.id == q) = true
    · rw [if_pos hq]
      have hc : ((q :: qs).contains p.id) = true := by
        have : p.id = q := by simpa using hq
        simp [List.contains_cons, this]
      rw [if_pos hc]
      by_cases hqs : qs.contains ({ p with isPlaying := false } : Player).id = true
      · rw [if_pos hqs]
      · rw [if_neg hqs]
    · rw [if_neg hq]
      have hc : ((q :: qs).contains p.id) = qs.contains p.id := by
        simp only [List.contains_cons]
        have h0 : (p.id == q) = false := by simpa using hq
        rw [h0, Bool.false_or]
      rw [hc]

/-- Folding `releasePlayers` over several matches clears exactly the union
of their member ids. -/
theorem foldRelease_eq_map :
    ∀ (ms : List GameMatch) (l : List Player), (l.map (·.id)).Nodup →
      ms.foldl (fun ps m => releasePlayers m.members ps) l =
        l.map (fun p => if ms.any (fun m => m.members.contains p.id) then
          { p with isPlaying := false } else p) := by
  intro ms
  induction ms with
  | nil =>
    intro l _
    rw [List.foldl_nil]
    have : ∀ p ∈ l, (if ([] : List GameMatch).any
        (fun m => m.members.contains p.id) then
        { p with isPlaying := false } else p) = p := by
      intro p _; rfl
    rw [List.map_congr_left this, List.map_id']
  | cons m0 ms ih =>
    intro l hnd
    rw [List.foldl_cons, releasePlayers_eq_map m0.members l hnd]
    have hnd' : ((l.map (fun p => if m0.members.contains p.id then
        { p with isPlaying := false } else p)).map (·.id)).Nodup := by
      rw [List.map_map]
      have hpt : ∀ p ∈ l, ((fun p => p.id) ∘ fun p =>
          if m0.members.contains p.id then { p with isPlaying := false } else p) p =
          p.id := by
        intro p _
        show (if m0.members.contains p.id then ({ p with isPlaying := false } : Player)
          else p).id = p.id
        by_cases h : m0.members.contains p.id = true
        · rw [if_pos h]
        · rw [if_neg h]
      rw [List.map_congr_left hpt]
      exact hnd
    rw [ih _ hnd', List.map_map]
    refine List.map_congr_left ?_
    intro p _
    show (if ms.any (fun m => m.members.contains
        (if m0.members.contains p.id then ({ p with isPlaying := false } : Player)
          else p).id) then
        ({ (if m0.members.contains p.id then ({ p with isPlaying := false } : Player)
          else p) with isPlaying := false } : Player)
      else (if m0.members.contains p.id then ({ p with isPlaying := false } : Player)
        else p)) =
      (if (m0 :: ms).any (fun m => m.members.contains p.id) then
        ({ p with isPlaying := false } : Player) else p)
    by_cases h0 : m0.members.contains p.id = true
    · rw [if_pos h0]
      have hc : ((m0 :: ms).any (fun m => m.members.contains p.id)) = true := by
        rw [List.any_cons, h0, Bool.true_or]
      rw [if_pos hc]
      by_cases hms : ms.any (fun m => m.members.contains
          ({ p with isPlaying := false } : Player).id) = true
      · rw [if_pos hms]
      · rw [if_neg hms]
    · rw [if_neg h0]
      have hc : ((m0 :: ms).any (fun m => m.members.contains p.id)) =
          (ms.any (fun m => m.members.contains p.id)) := by
        have h0' : m0.members.contains p.id = false := by simpa using h0
        rw [List.any_cons, h0', Bool.false_or]
      rw [hc]

/-- C9: completing one match (or all active matches) stamps it completed with
a completion time, removes it from the active set, and clears the busy flag
of exactly its member players found in the roster — members absent from the
roster are skipped without aborting, and an unknown match id is a silent
no-op. -/
theorem completeMatch_releases_members (st : AppState) (mid now : Nat)
    (hnd : (st.players.map (·.id)).Nodup) :
    (∀ m rest,
      extractFirstBy (fun mm => mm.id == mid) st.currentMatches = some (m, rest) →
      (completeMatch mid now st).1 =
        .done { m with status := .completed, completedAt := some now } ∧
      ({ m with status := .completed, completedAt := some now } : GameMatch).status
        = .completed ∧
      ({ m with status := .completed, completedAt := some now } : GameMatch).completedAt
        = some now ∧
      (completeMatch mid now st).2.currentMatches = rest ∧
      (completeMatch mid now st).2.players =
        st.players.map (fun p => if m.members.contains p.id then
          { p with isPlaying := false } else p)) ∧
    (extractFirstBy (fun mm => mm.id == mid) st.currentMatches = none →
      completeMatch mid now st = (.notFound, st)) ∧
    (st.currentMatches ≠ [] →
      (completeCurrentMatches now st).1 = .done (st.currentMatches.map
        (fun m => { m with status := .completed, completedAt := some now })) ∧
      (∀ m' ∈ st.currentMatches.map
          (fun m => { m with status := .completed, completedAt := some now }),
        m'.status = .completed ∧ m'.completedAt = some now) ∧
      (completeCurrentMatches now st).2.currentMatches = [] ∧
      (completeCurrentMatches now st).2.players =
        st.players.map (fun p => if st.currentMatches.any
            (fun m => m.members.contains p.id) then
          { p with isPlaying := false } else p)) := by
  refine ⟨?_, ?_, ?_⟩
  · intro m rest hex
    rw [completeMatch, hex]
    refine ⟨rfl, rfl, rfl, rfl, ?_⟩
    exact releasePlayers_eq_map m.members st.players hnd
  · intro hex
    rw [completeMatch, hex]
  · intro hne
    rw [completeCurrentMatches, if_neg hne]
    refine ⟨rfl, ?_, rfl, ?_⟩
    · intro m' hm'
      rcases List.mem_map.1 hm' with ⟨m0, _, hm0⟩
      subst hm0
      exact ⟨rfl, rfl⟩
    · exact foldRelease_eq_map st.currentMatches st.players hnd

/-- Witness: one singles match on court 1 whose team2 member is absent from
the roster; completion still succeeds and releases the present member. -/
theorem completeMatch_releases_members_witness :
    (([mkPlayer 1 .pro 1 true false] : List Player).map (fun p => p.id)).Nodup ∧
    (completeMatch 10 9
      { players := [mkPlayer 1 .pro 1 true false]
        allMatches := [], matchQueue := [], rounds := []
        currentMatches := [{ id := 10, type := .singles, team1 := [1], team2 := [2]
                             status := .playing, court := some 1, roundId := none
                             roundNumber := none, createdAt := 0, startedAt := some 0
                             completedAt := none, scores := none, winner := none }]
        settings := ⟨.singles, .random, 2, false⟩, currentRound := 1 }).2.players =
      [{ mkPlayer 1 .pro 1 true false with isPlaying := false }] :=
  ⟨by decide, by
    have h := (completeMatch_releases_members
      { players := [mkPlayer 1 .pro 1 true false]
        allMatches := [], matchQueue := [], rounds := []
        currentMatches := [{ id := 10, type := .singles, team1 := [1], team2 := [2]
                             status := .playing, court := some 1, roundId := none
                             roundNumber := none, createdAt := 0, startedAt := some 0
                             completedAt := none, scores := none, winner := none }]
        settings := ⟨.singles, .random, 2, false⟩, currentRound := 1 }
      10 9 (by decide)).1 _ _ rfl
    rw [h.2.2.2.2]
    decide⟩

/-! ### C8: score recording -/

theorem scoreUpdate_id (m : GameMatch) (w : Winner) (pid : Nat) (p : Player) :
    (scoreUpdate m w pid p).id = p.id := by
  rw [scoreUpdate]
  split_ifs <;> rfl

theorem deriveWinner_team1_iff (s : Scores) :
    deriveWinner s = .team1 ↔ team1Wins s > team2Wins s := by
  rw [deriveWinner]
  split_ifs with h1 h2 <;> simp_all

theorem deriveWinner_team2_iff (s : Scores) :
    deriveWinner s = .team2 ↔ team2Wins s > team1Wins s := by
  rw [deriveWinner]
  split_ifs with h1 h2 <;> simp_all <;> omega

theorem deriveWinner_draw_iff (s : Scores) :
    deriveWinner s = .draw ↔ team1Wins s = team2Wins s := by
  rw [deriveWinner]
  split_ifs with h1 h2 <;> simp_all <;> omega

/-- Folding first-hit updates over pairwise-distinct member ids on a roster
with pairwise-distinct ids is a pointwise map. -/
theorem foldUpdate_eq_map (g : Nat → Player → Player)
    (hid : ∀ pid p, (g pid p).id = p.id) :
    ∀ (pids : List Nat), pids.Nodup →
      ∀ (l : List Player), (l.map (·.id)).Nodup →
        pids.foldl (fun ps pid =>
          updateFirstBy (fun p => p.id == pid) (g pid) ps) l =
          l.map (fun p => if pids.contains p.id then g p.id p else p) := by
  intro pids
  induction pids with
  | nil =>
    intro _ l _
    rw [List.foldl_nil]
    have hpt : ∀ p ∈ l, (if ([] : List Nat).contains p.id then g p.id p else p)
        = p := by
      intro p _; rfl
    rw [List.map_congr_left hpt, List.map_id']
  | cons q qs ih =>
    intro hqnd l hnd
    rw [List.foldl_cons, updateFirstBy_eq_map_of_nodup (g q) q l hnd]
    have hnd' : ((l.map (fun p => if (p.id == q) = true then g q p else p)).map
        (·.id)).Nodup := by
      rw [List.map_map]
      have hpt : ∀ p ∈ l, ((fun p => p.id) ∘ fun p =>
          if (p.id == q) = true then g q p else p) p = p.id := by
        intro p _
        show (if (p.id == q) = true then g q p else p).id = p.id
        by_cases h : (p.id == q) = true
        · rw [if_pos h, hid]
        · rw [if_neg h]
      rw [List.map_congr_left hpt]
      exact hnd
    rw [ih (List.nodup_cons.1 hqnd).2 _ hnd', List.map_map]
    refine List.map_congr_left ?_
    intro p _
    show (if qs.contains (if (p.id == q) = true then g q p else p).id then
        g (if (p.id == q) = true then g q p else p).id
          (if (p.id == q) = true then g q p else p)
      else (if (p.id == q) = true then g q p else p)) =
      (if (q :: qs).contains p.id then g p.id p else p)
    by_cases hq : (p.id == q) = true
    · rw [if_pos hq]
      have hq' : p.id = q := by simpa using hq
      have hnotin : q ∉ qs := (List.nodup_cons.1 hqnd).1
      have hcont : ¬ qs.contains (g q p).id = true := by
        rw [hid q p, hq']
        simpa using hnotin
      rw [if_neg hcont]
      have hc : (q :: qs).contains p.id = true := by
        rw [List.contains_cons, hq, Bool.true_or]
      rw [if_pos hc, hq']
    · rw [if_neg hq]
      have hc : (q :: qs).contains p.id = qs.contains p.id := by
        have h0 : (p.id == q) = false := by simpa using hq
        rw [List.contains_cons, h0, Bool.false_or]
      rw [hc]

theorem scoreUpdate_team1_stats (m : GameMatch) (w : Winner) (p : Player)
    (h1 : p.id ∈ m.team1) (h2 : p.id ∉ m.team2) :
    (scoreUpdate m w p.id p).wins.getD 0 =
      p.wins.getD 0 + (if w = .team1 then 1 else 0) ∧
    (scoreUpdate m w p.id p).losses.getD 0 =
      p.losses.getD 0 + (if w = .team2 then 1 else 0) ∧
    (scoreUpdate m w p.id p).isPlaying = false := by
  cases w with
  | team1 =>
    rw [scoreUpdate, if_pos ⟨rfl, by simpa using h1⟩]
    refine ⟨by simp, by simp, rfl⟩
  | team2 =>
    rw [scoreUpdate, if_neg (by rintro ⟨h, _⟩; cases h),
      if_neg (by rintro ⟨_, hc⟩; exact h2 (by simpa using hc)),
      if_pos (by simp)]
    refine ⟨by simp, by simp, rfl⟩
  | draw =>
    rw [scoreUpdate, if_neg (by rintro ⟨h, _⟩; cases h),
      if_neg (by rintro ⟨h, _⟩; cases h), if_neg (by simp)]
    refine ⟨by simp, by simp, rfl⟩

theorem scoreUpdate_team2_stats (m : GameMatch) (w : Winner) (p : Player)
    (h1 : p.id ∈ m.team2) (h2 : p.id ∉ m.team1) :
    (scoreUpdate m w p.id p).wins.getD 0 =
      p.wins.getD 0 + (if w = .team2 then 1 else 0) ∧
    (scoreUpdate m w p.id p).losses.getD 0 =
      p.losses.getD 0 + (if w = .team1 then 1 else 0) ∧
    (scoreUpdate m w p.id p).isPlaying = false := by
  cases w with
  | team1 =>
    rw [scoreUpdate, if_neg (by rintro ⟨_, hc⟩; exact h2 (by simpa using hc)),
      if_neg (by rintro ⟨h, _⟩; cases h), if_pos (by simp)]
    refine ⟨by simp, by simp, rfl⟩
  | team2 =>
    rw [scoreUpdate, if_neg (by rintro ⟨h, _⟩; cases h),
      if_pos ⟨rfl, by simpa using h1⟩]
    refine ⟨by simp, by simp, rfl⟩
  | draw =>
    rw [scoreUpdate, if_neg (by rintro ⟨h, _⟩; cases h),
      if_neg (by rintro ⟨h, _⟩; cases h), if_neg (by simp)]
    refine ⟨by simp, by simp, rfl⟩

/-- C8: `saveScore` derives the winner by counting strict per-set score
comparisons (a tied set counts for neither side), stamps the match completed
with scores and winner, and — through the roster lookup — adds one win to
every member of the winning team found in the roster, one loss to every
member of the losing team found in the roster, and changes no counter on a
draw.  In particular `{21,19},{18,21},{21,15}` yields winner `team1`. -/
theorem saveScore_winner_and_stats (st : AppState) (mid : Nat) (s : Scores)
    (now : Nat) (m : GameMatch) (rest : List GameMatch)
    (hex : extractFirstBy (fun mm => mm.id == mid) st.currentMatches = some (m, rest))
    (hmem : m.members.Nodup)
    (hnd : (st.players.map (·.id)).Nodup) :
    (saveScore mid s now st).1 = .saved { m with
      status := .completed
      completedAt := some now
      scores := some s
      winner := some (deriveWinner s) } ∧
    (deriveWinner s = .team1 ↔ team1Wins s > team2Wins s) ∧
    (deriveWinner s = .team2 ↔ team2Wins s > team1Wins s) ∧
    (deriveWinner s = .draw ↔ team1Wins s = team2Wins s) ∧
    (saveScore mid s now st).2.players =
      st.players.map (fun p => if m.members.contains p.id then
        scoreUpdate m (deriveWinner s) p.id p else p) ∧
    (∀ p : Player, p.id ∈ m.team1 →
      (scoreUpdate m (deriveWinner s) p.id p).wins.getD 0 =
        p.wins.getD 0 + (if deriveWinner s = .team1 then 1 else 0) ∧
      (scoreUpdate m (deriveWinner s) p.id p).losses.getD 0 =
        p.losses.getD 0 + (if deriveWinner s = .team2 then 1 else 0)) ∧
    (∀ p : Player, p.id ∈ m.team2 →
      (scoreUpdate m (deriveWinner s) p.id p).wins.getD 0 =
        p.wins.getD 0 + (if deriveWinner s = .team2 then 1 else 0) ∧
      (scoreUpdate m (deriveWinner s) p.id p).losses.getD 0 =
        p.losses.getD 0 + (if deriveWinner s = .team1 then 1 else 0)) := by
  have hdisj := List.disjoint_of_nodup_append hmem
  refine ⟨?_, deriveWinner_team1_iff s, deriveWinner_team2_iff s,
    deriveWinner_draw_iff s, ?_, ?_, ?_⟩
  · rw [saveScore, hex]
  · rw [saveScore, hex]
    exact foldUpdate_eq_map (scoreUpdate m (deriveWinner s))
      (fun pid p => scoreUpdate_id m (deriveWinner s) pid p)
      m.members hmem st.players hnd
  · intro p hp
    have h2 : p.id ∉ m.team2 := hdisj hp
    exact ⟨(scoreUpdate_team1_stats m (deriveWinner s) p hp h2).1,
      (scoreUpdate_team1_stats m (deriveWinner s) p hp h2).2.1⟩
  · intro p hp
    have h1 : p.id ∉ m.team1 := fun hmem1 => hdisj hmem1 hp
    exact ⟨(scoreUpdate_team2_stats m (deriveWinner s) p hp h1).1,
      (scoreUpdate_team2_stats m (deriveWinner s) p hp h1).2.1⟩

/-- The concrete score-round-trip scenario of the spec. -/
def scoreMatch : GameMatch :=
  { id := 9, type := .doubles, team1 := [1, 2], team2 := [3, 4]
    status := .playing, court := some 1, roundId := none, roundNumber := none
    createdAt := 0, startedAt := some 0, completedAt := none, scores := none
    winner := none }

def scoreState : AppState :=
  { players := [mkPlayer 1 .pro 1 true false, mkPlayer 2 .advanced 1 true false,
                mkPlayer 3 .intermediate 1 true false, mkPlayer 4 .beginner 1 true false]
    allMatches := [scoreMatch], currentMatches := [scoreMatch], matchQueue := []
    rounds := [], settings := ⟨.doubles, .random, 2, false⟩, currentRound := 1 }

/-- Witness: recording `{21,19},{18,21},{21,15}` yields winner `team1` and
the stated roster update. -/
theorem saveScore_winner_and_stats_witness :
    deriveWinner ⟨21, 18, 21, 19, 21, 15⟩ = Winner.team1 ∧
    (saveScore 9 ⟨21, 18, 21, 19, 21, 15⟩ 5 scoreState).2.players =
      scoreState.players.map (fun p => if scoreMatch.members.contains p.id then
        scoreUpdate scoreMatch (deriveWinner ⟨21, 18, 21, 19, 21, 15⟩) p.id p
      else p) :=
  ⟨by decide,
   (saveScore_winner_and_stats scoreState 9 ⟨21, 18, 21, 19, 21, 15⟩ 5 scoreMatch
      [] (by decide) (by decide) (by decide)).2.2.2.2.1⟩

/-! ### C10: no name-uniqueness check on player edit -/

theorem find?_eq_self_of_nodup :
    ∀ (l : List Player) (a : Player), (l.map (·.id)).Nodup → a ∈ l →
      l.find? (fun p => p.id == a.id) = some a := by
  intro l
  induction l with
  | nil => intro a _ h; cases h
  | cons x xs ih =>
    intro a hnd hmem
    rw [List.map_cons, List.nodup_cons] at hnd
    rcases List.mem_cons.1 hmem with hax | hx
    · subst hax
      exact @List.find?_cons_of_pos _ (fun p => p.id == a.id) a xs (by simp)
    · have hne : ¬ (x.id == a.id) = true := by
        intro hx'
        refine hnd.1 ?_
        have : x.id = a.id := by simpa using hx'
        rw [this]
        exact List.mem_map_of_mem (·.id) hx
      rw [@List.find?_cons_of_neg _ (fun p => p.id == a.id) x xs hne]
      exact ih a hnd.2 hx

theorem mem_updateFirstBy_of_miss {hit : Player → Bool} {f : Player → Player} :
    ∀ {l : List Player} {a : Player}, a ∈ l → hit a = false →
      a ∈ updateFirstBy hit f l := by
  intro l
  induction l with
  | nil => intro a h _; cases h
  | cons x xs ih =>
    intro a hmem hmiss
    rw [updateFirstBy]
    by_cases hx : hit x = true
    · rw [if_pos hx]
      rcases List.mem_cons.1 hmem with hax | hx'
      · subst hax; rw [hmiss] at hx; cases hx
      · exact List.mem_cons_of_mem _ hx'
    · rw [if_neg hx]
      rcases List.mem_cons.1 hmem with hax | hx'
      · subst hax; exact List.mem_cons_self _ _
      · exact List.mem_cons_of_mem _ (ih hx' hmiss)

theorem mem_updateFirstBy_of_found {hit : Player → Bool} {f : Player → Player} :
    ∀ {l : List Player} {a : Player}, l.find? hit = some a →
      f a ∈ updateFirstBy hit f l := by
  intro l
  induction l with
  | nil => intro a h; cases h
  | cons x xs ih =>
    intro a hfind
    rw [updateFirstBy]
    by_cases hx : hit x = true
    · rw [List.find?_cons_of_pos xs hx] at hfind
      cases hfind
      rw [if_pos hx]
      exact List.mem_cons_self _ _
    · rw [List.find?_cons_of_neg xs hx] at hfind
      rw [if_neg hx]
      exact List.mem_cons_of_mem _ (ih hfind)

/-- C10: `saveEditPlayer` enforces no name uniqueness — renaming player `A`
to the exact (non-empty) name of another player `B` succeeds, leaving two
distinct roster entries with case-insensitively equal names; the
duplicate-name check exists only in the creation path (`addPlayer` rejects a
case-insensitive duplicate and leaves the state unchanged). -/
theorem saveEditPlayer_allows_duplicate_names (st : AppState) (A B : Player)
    (lvl : Level) (hA : A ∈ st.players) (hB : B ∈ st.players)
    (hAB : A.id ≠ B.id) (hnd : (st.players.map (·.id)).Nodup)
    (htrim : strTrim B.name = B.name) (hnonempty : B.name ≠ "") :
    (∀ newId now : Nat,
      (saveEditPlayer A.id B.name lvl st).1 = .saved ∧
      (∃ p ∈ (saveEditPlayer A.id B.name lvl st).2.players,
       ∃ q ∈ (saveEditPlayer A.id B.name lvl st).2.players,
        p.id = A.id ∧ q.id = B.id ∧ p.id ≠ q.id ∧
        p.name = B.name ∧ q.name = B.name ∧
        p.name.toLower = q.name.toLower) ∧
      ((∃ r ∈ st.players, r.name.toLower = B.name.toLower) →
        addPlayer B.name lvl newId now st = (.duplicateName, st))) := by
  intro newId now
  have hfind : st.players.find? (fun p => p.id == A.id) = some A :=
    find?_eq_self_of_nodup st.players A hnd hA
  have hne : B.name = "" → False := hnonempty
  constructor
  · rw [saveEditPlayer]
    simp only [htrim]
    rw [if_neg hnonempty, hfind]
  · constructor
    · rw [saveEditPlayer]
      simp only [htrim]
      rw [if_neg hnonempty, hfind]
      refine ⟨{ A with name := B.name, level := lvl }, ?_, B, ?_, rfl, rfl,
        hAB, rfl, rfl, rfl⟩
      · have := mem_updateFirstBy_of_found
          (f := fun p => { p with name := B.name, level := lvl }) hfind
        simpa using this
      · refine mem_updateFirstBy_of_miss hB ?_
        simpa using fun h => hAB h.symm
    · intro hdup
      rw [addPlayer]
      simp only [htrim]
      rw [if_neg hnonempty]
      rcases hdup with ⟨r, hr, hrn⟩
      rw [if_pos ?_]
      rw [List.any_eq_true]
      exact ⟨r, hr, by simp [hrn]⟩

/-- Witness: renaming player 1 to player 2's name succeeds and leaves two
distinct players named "bob"; adding another "Bob" is rejected. -/
theorem saveEditPlayer_allows_duplicate_names_witness :
    (saveEditPlayer 1 "bob" Level.pro
      { players := [Player.mk 1 "alice" .pro 0 false false none none 0,
                    Player.mk 2 "bob" .beginner 0 false false none none 0]
        allMatches := [], currentMatches := [], matchQueue := [], rounds := []
        settings := ⟨.doubles, .random, 2, false⟩, currentRound := 0 }).1 =
      .saved ∧
    (∃ p ∈ (saveEditPlayer 1 "bob" Level.pro
      { players := [Player.mk 1 "alice" .pro 0 false false none none 0,
                    Player.mk 2 "bob" .beginner 0 false false none none 0]
        allMatches := [], currentMatches := [], matchQueue := [], rounds := []
        settings := ⟨.doubles, .random, 2, false⟩,
        currentRound := 0 }).2.players,
     ∃ q ∈ (saveEditPlayer 1 "bob" Level.pro
      { players := [Player.mk 1 "alice" .pro 0 false false none none 0,
                    Player.mk 2 "bob" .beginner 0 false false none none 0]
        allMatches := [], currentMatches := [], matchQueue := [], rounds := []
        settings := ⟨.doubles, .random, 2, false⟩,
        currentRound := 0 }).2.players,
      p.id = 1 ∧ q.id = 2 ∧ p.id ≠ q.id ∧ p.name = "bob" ∧ q.name = "bob" ∧
      p.name.toLower = q.name.toLower) := by
  have h := saveEditPlayer_allows_duplicate_names
    { players := [Player.mk 1 "alice" .pro 0 false false none none 0,
                  Player.mk 2 "bob" .beginner 0 false false none none 0]
      allMatches := [], currentMatches := [], matchQueue := [], rounds := []
      settings := ⟨.doubles, .random, 2, false⟩, currentRound := 0 }
    (Player.mk 1 "alice" .pro 0 false false none none 0)
    (Player.mk 2 "bob" .beginner 0 false false none none 0)
    Level.pro (by decide) (by decide) (by decide) (by decide) (by decide)
    (by decide) 7 7
  exact ⟨h.1, h.2.1⟩

end Badminton
